import Mathlib

/-!
# obsgradeavg: credit-point weighted grade average scraped from a portal

A shallow embedding of the two scraper programs of the repository,
`gradeavg.go` and `obsgradeavg.go`, and the properties stated about them.

* Text is a list of characters; the routines of `strings`, `strconv` and `fmt`
  that the programs call are modelled on it, after their documentation.
* `float32` is modelled exactly: a value is NaN, an infinity or a finite binary32
  number `(-1)^neg * m * 2^e`, and every operation rounds to nearest, ties to even.
  Each operation of the programs is rounded on its own (no fused multiply-add).
* `int` is the 64-bit two's complement integer.
* A fetched page is represented by what the selectors of the programs find on it,
  and the portal answers a request by its URL alone.
* A run produces a log of requests and printed text, and either a value, a
  process exit (`os.Exit(1)`) or a run-time panic.
* The two programs share `login`, `calculateAvgGrade` and the body of `main`;
  what differs is in the namespaces `Gradeavg` and `Obsgradeavg`. The reading
  of the credentials at the start of `main` is left out.
-/

/-- Text: a Go string, as its sequence of characters. -/
abbrev Text := List Char

namespace Strings

/-- The pieces of `s` between the occurrences of a non-empty separator;
`skip` counts the characters of a separator occurrence still to be dropped and
`cur` holds the current piece, reversed. -/
def splitGo (sep : Text) : Text → Nat → Text → List Text
  | [], _, cur => [cur.reverse]
  | _ :: cs, skip + 1, cur => splitGo sep cs skip cur
  | c :: cs, 0, cur =>
    if sep.isPrefixOf (c :: cs) then cur.reverse :: splitGo sep cs (sep.length - 1) []
    else splitGo sep cs 0 (c :: cur)

/-- Model of `strings.Split(s, sep)`: with an empty separator the string is
exploded into its characters, otherwise it is cut at every occurrence of `sep`,
taken from left to right without overlap. The result of cutting is never empty. -/
def split (s sep : Text) : List Text :=
  if sep = [] then s.map (fun c => [c]) else splitGo sep s 0 []

/-- The first occurrence of the non-empty text `old` replaced by `new`. -/
def replaceFirst (old new : Text) : Text → Text
  | [] => []
  | c :: cs =>
    if old.isPrefixOf (c :: cs) then new ++ (c :: cs).drop old.length
    else c :: replaceFirst old new cs

/-- Model of `strings.Replace(s, old, new, 1)`: an empty `old` matches at the
beginning of the string. -/
def replace1 (s old new : Text) : Text :=
  if old = [] then new ++ s else replaceFirst old new s

/-- Model of `strings.TrimPrefix`. -/
def trimPrefix (s pre : Text) : Text :=
  if pre.isPrefixOf s then s.drop pre.length else s

/-- Model of `strings.TrimSuffix`. -/
def trimSuffix (s suf : Text) : Text :=
  if suf.isSuffixOf s then s.take (s.length - suf.length) else s

/-- Model of `strings.Contains`. -/
def contains (sub : Text) : Text → Bool
  | [] => sub.isEmpty
  | c :: cs => sub.isPrefixOf (c :: cs) || contains sub cs

end Strings

/-- A `float32` value: NaN, a signed infinity, or the finite number
`(-1)^neg * m * 2^e` in the canonical form of binary32, that is `m < 2^24`,
`-149 ≤ e ≤ 104`, and `2^23 ≤ m` unless `e = -149`. The two zeros are
`fin false 0 (-149)` and `fin true 0 (-149)`. -/
inductive F32 where
  | nan
  | inf (neg : Bool)
  | fin (neg : Bool) (m : Nat) (e : Int)
  deriving DecidableEq, Repr

namespace F32

/-- Number of binary digits of `n`, computed with at most `fuel` halvings. -/
def bitsFuel : Nat → Nat → Nat
  | 0, _ => 0
  | fuel + 1, n => if n = 0 then 0 else bitsFuel fuel (n / 2) + 1

/-- Number of binary digits of `n` (0 for 0). -/
def bits (n : Nat) : Nat := bitsFuel n n

/-- Whether `p / d < 2^k`. -/
def ltPow2 (p d : Nat) (k : Int) : Bool :=
  if 0 ≤ k then decide (p < d * 2 ^ k.toNat) else decide (p * 2 ^ (-k).toNat < d)

/-- The integer `k` with `2^k ≤ p / d < 2^(k+1)`, for positive `p` and `d`. -/
def floorLog2 (p d : Nat) : Int :=
  let k : Int := (bits p : Int) - (bits d : Int)
  if ltPow2 p d k then k - 1 else k

/-- The quotient `a / b` rounded to the nearest integer, ties to even. -/
def divRoundEven (a b : Nat) : Nat :=
  let q := a / b
  let r := a % b
  if 2 * r < b then q else if b < 2 * r then q + 1 else if q % 2 = 0 then q else q + 1

/-- The quotient `p / (d * 2^s)` rounded to the nearest integer, ties to even. -/
def scaledRound (p d : Nat) (s : Int) : Nat :=
  if 0 ≤ s then divRoundEven p (d * 2 ^ s.toNat) else divRoundEven (p * 2 ^ (-s).toNat) d

/-- The binary32 value nearest to `(-1)^neg * p / d` (`d` positive), ties to even:
24 significant bits, exponent of the last place at least `-149`, and an
infinity once the rounded value exceeds the largest finite number. -/
def roundFrac (neg : Bool) (p d : Nat) : F32 :=
  if p = 0 then .fin neg 0 (-149) else
  let s := max (floorLog2 p d) (-126) - 23
  let n := scaledRound p d s
  let s2 := if n = 2 ^ 24 then s + 1 else s
  let n2 := if n = 2 ^ 24 then 2 ^ 23 else n
  if 104 < s2 then .inf neg else .fin neg n2 s2

/-- The binary32 value nearest to the fraction `n / d`. -/
def ofFrac (n : Int) (d : Nat) : F32 := roundFrac (decide (n < 0)) n.natAbs d

/-- Conversion `float32(i)` of an integer. -/
def ofInt (i : Int) : F32 := ofFrac i 1

/-- Numerator of a finite value over the denominator `den`. -/
def num (neg : Bool) (m : Nat) (e : Int) : Int :=
  let a : Int := if 0 ≤ e then (m * 2 ^ e.toNat : Nat) else (m : Nat)
  if neg then -a else a

/-- Denominator of a finite value. -/
def den (e : Int) : Nat := if 0 ≤ e then 1 else 2 ^ (-e).toNat

/-- The exact rational value of a finite float. -/
def toRat : F32 → Option ℚ
  | .fin neg m e => some ((num neg m e : ℚ) / (den e : ℚ))
  | _ => none

/-- Addition of `float32`. An exact sum of zero is `+0` unless both operands
are negative zeros. -/
def add : F32 → F32 → F32
  | .nan, _ => .nan
  | _, .nan => .nan
  | .inf a, .inf b => if a = b then .inf a else .nan
  | .inf a, .fin _ _ _ => .inf a
  | .fin _ _ _, .inf b => .inf b
  | .fin n1 m1 e1, .fin n2 m2 e2 =>
    let s : Int := num n1 m1 e1 * den e2 + num n2 m2 e2 * den e1
    if s = 0 then .fin (n1 && n2) 0 (-149) else ofFrac s (den e1 * den e2)

/-- Multiplication of `float32`. -/
def mul : F32 → F32 → F32
  | .nan, _ => .nan
  | _, .nan => .nan
  | .inf a, .inf b => .inf (xor a b)
  | .inf a, .fin n m _ => if m = 0 then .nan else .inf (xor a n)
  | .fin n m _, .inf b => if m = 0 then .nan else .inf (xor n b)
  | .fin n1 m1 e1, .fin n2 m2 e2 =>
    roundFrac (xor n1 n2) ((num false m1 e1).natAbs * (num false m2 e2).natAbs) (den e1 * den e2)

/-- Division of `float32`: `0/0` and `inf/inf` are NaN, a non-zero value over
zero is an infinity. -/
def div : F32 → F32 → F32
  | .nan, _ => .nan
  | _, .nan => .nan
  | .inf _, .inf _ => .nan
  | .inf a, .fin n _ _ => .inf (xor a n)
  | .fin n _ _, .inf b => .fin (xor n b) 0 (-149)
  | .fin n1 m1 e1, .fin n2 m2 e2 =>
    if m2 = 0 then (if m1 = 0 then .nan else .inf (xor n1 n2))
    else roundFrac (xor n1 n2) ((num false m1 e1).natAbs * den e2) ((num false m2 e2).natAbs * den e1)

/-- The comparison `==` of Go on floats: NaN equals nothing and the two zeros
are equal. -/
def eq : F32 → F32 → Bool
  | .nan, _ => false
  | _, .nan => false
  | .inf a, .inf b => a == b
  | .fin n1 m1 e1, .fin n2 m2 e2 => (m1 == 0 && m2 == 0) || (n1 == n2 && m1 == m2 && e1 == e2)
  | _, _ => false

/-- The constant `0`. -/
def zero : F32 := .fin false 0 (-149)

end F32

namespace Strconv

/-- The error of a conversion: `invalid` is `ErrSyntax`, `range` is `ErrRange`. -/
inductive NumError where
  | invalid
  | range
  deriving DecidableEq, Repr

/-- Whether the character is a decimal digit. -/
def isDigit (c : Char) : Bool := decide (48 ≤ c.toNat ∧ c.toNat ≤ 57)

/-- The value of a decimal digit. -/
def digitVal (c : Char) : Nat := c.toNat - 48

/-- The helper `lower` of `strconv`: the character code with bit `0x20` set. -/
def lower (c : Char) : Nat := c.toNat ||| 32

/-- Whether the character is one of `a`..`f` or `A`..`F`. -/
def isHexLetter (c : Char) : Bool := decide (97 ≤ lower c ∧ lower c ≤ 102)

/-- The code of a character with `A`..`Z` mapped to lower case. -/
def asciiLower (c : Char) : Nat :=
  if 65 ≤ c.toNat ∧ c.toNat ≤ 90 then c.toNat + 32 else c.toNat

/-- Model of `commonPrefixLenIgnoreCase`: the length of the longest common
prefix of `s` and the lower-case text `pre`, ignoring the case of `s`. -/
def commonPrefixLen : Text → Text → Nat
  | c :: cs, p :: ps => if asciiLower c = p.toNat then commonPrefixLen cs ps + 1 else 0
  | _, _ => 0

/-- The infinity case of `special`: `inf` or `infinity`, after `nsign`
characters of sign. -/
def specialInf (neg : Bool) (nsign : Nat) (s : Text) : Option (F32 × Nat) :=
  let n := commonPrefixLen s "infinity".toList
  let n := if 3 < n ∧ n < 8 then 3 else n
  if n = 3 ∨ n = 8 then some (.inf neg, nsign + n) else none

/-- Model of `special`: the value and the number of characters consumed when
the text starts with an infinity or a NaN. -/
def special : Text → Option (F32 × Nat)
  | [] => none
  | c :: cs =>
    if c = '+' ∨ c = '-' then specialInf (c = '-') 1 cs
    else if c = 'i' ∨ c = 'I' then specialInf false 0 (c :: cs)
    else if c = 'n' ∨ c = 'N' then
      (if commonPrefixLen (c :: cs) "nan".toList = 3 then some (.nan, 3) else none)
    else none

/-- The mantissa read so far by `readFloat`. -/
structure Mantissa where
  /-- The digits read, as a number in the base. -/
  digits : Nat
  /-- How many of the digits follow the point. -/
  frac : Nat
  sawdot : Bool
  sawdigits : Bool
  deriving DecidableEq, Repr

/-- One more digit of value `v`. -/
def Mantissa.push (a : Mantissa) (base v : Nat) : Mantissa :=
  { a with digits := a.digits * base + v,
           frac := if a.sawdot then a.frac + 1 else a.frac,
           sawdigits := true }

/-- The mantissa loop of `readFloat`: digits, underscores and at most one
point; it stops at the first other character and returns the rest. -/
def readMantissa (base : Nat) : Text → Mantissa → Mantissa × Text
  | [], a => (a, [])
  | c :: cs, a =>
    if c = '_' then readMantissa base cs a
    else if c = '.' then
      (if a.sawdot then (a, c :: cs) else readMantissa base cs { a with sawdot := true })
    else if isDigit c then readMantissa base cs (a.push base (digitVal c))
    else if base = 16 ∧ isHexLetter c then readMantissa base cs (a.push base (lower c - 97 + 10))
    else (a, c :: cs)

/-- The digit loop of the exponent: the value stops growing once it has
reached 10000. -/
def readExpDigits : Text → Nat → Nat × Text
  | [], e => (e, [])
  | c :: cs, e =>
    if c = '_' then readExpDigits cs e
    else if isDigit c then readExpDigits cs (if e < 10000 then e * 10 + digitVal c else e)
    else (e, c :: cs)

/-- The optional exponent of `readFloat`, introduced by `e` (decimal) or `p`
(hexadecimal, where it is mandatory): the exponent and the rest, or `none`
when it is malformed or missing where required. -/
def readExponent (hex : Bool) : Text → Option (Int × Text)
  | [] => if hex then none else some (0, [])
  | c :: cs =>
    if lower c = (if hex then 112 else 101) then
      match cs with
      | [] => none
      | d :: ds =>
        let esign : Int := if d = '-' then -1 else 1
        let rest := if d = '+' ∨ d = '-' then ds else d :: ds
        match rest with
        | [] => none
        | r :: _ =>
          if isDigit r then
            let p := readExpDigits rest 0
            some ((p.1 : Int) * esign, p.2)
          else none
    else if hex then none else some (0, c :: cs)

/-- The scan of `underscoreOK` after the optional sign and base prefix;
`saw` is 0 at the beginning, 1 after a digit or the base prefix, 2 after an
underscore and 3 after anything else. -/
def underscoreScan (hex : Bool) : Text → Nat → Bool
  | [], saw => saw != 2
  | c :: cs, saw =>
    if isDigit c || (hex && isHexLetter c) then underscoreScan hex cs 1
    else if c = '_' then (if saw != 1 then false else underscoreScan hex cs 2)
    else if saw = 2 then false
    else underscoreScan hex cs 3

/-- Model of `underscoreOK`: underscores only between digits, or between the
base prefix and a digit. -/
def underscoreOK (s : Text) : Bool :=
  let s := match s with
    | c :: cs => if c = '-' ∨ c = '+' then cs else c :: cs
    | [] => []
  match s with
  | c0 :: c1 :: cs =>
    if c0 = '0' ∧ (lower c1 = 98 ∨ lower c1 = 111 ∨ lower c1 = 120) then
      underscoreScan (lower c1 = 120) cs 1
    else underscoreScan false s 0
  | _ => underscoreScan false s 0

/-- The value `(-1)^neg * digits * base^(-frac) * b^exp` rounded to `float32`,
where `b` is 10 for a decimal and 2 for a hexadecimal literal. -/
def literalValue (neg hex : Bool) (a : Mantissa) (exp : Int) : F32 :=
  let b : Nat := if hex then 2 else 10
  let x : Int := exp - (if hex then 4 * a.frac else a.frac : Nat)
  if 0 ≤ x then F32.roundFrac neg (a.digits * b ^ x.toNat) 1
  else F32.roundFrac neg a.digits (b ^ (-x).toNat)

/-- Whether the text after the sign starts with the prefix `0x` of a
hexadecimal literal: `0`, then `x` or `X`, then at least one more character. -/
def hasHexPrefix : Text → Bool
  | c0 :: c1 :: _ :: _ => decide (c0 = '0' ∧ lower c1 = 120)
  | _ => false

/-- The part of `readFloat` after the sign and the base prefix, followed by the
conversion: mantissa with at least one digit, optional exponent, nothing left
over, and valid underscores in the whole text `s`. -/
def readNumber (s : Text) (neg hex : Bool) (digits : Text) : Option F32 :=
  let m := readMantissa (if hex then 16 else 10) digits ⟨0, 0, false, false⟩
  if !m.1.sawdigits then none else
  match readExponent hex m.2 with
  | none => none
  | some (e, rest) =>
    if rest ≠ [] then none
    else if s.contains '_' && !underscoreOK s then none
    else some (literalValue neg hex m.1 e)

/-- Model of `readFloat` followed by the conversion, for a text that has to be
consumed whole: optional sign, optional `0x` prefix, then the number. `none` is
a syntax error. -/
def readFloat (s : Text) : Option F32 :=
  match s with
  | [] => none
  | c :: cs =>
    let body := if c = '+' ∨ c = '-' then cs else c :: cs
    readNumber s (c = '-') (hasHexPrefix body) (if hasHexPrefix body then body.drop 2 else body)

/-- Model of `strconv.ParseFloat(s, 32)`: the `float32` nearest to the literal
(ties to even) when `s` is well formed; `0` with `ErrSyntax` when it is not;
an infinity with `ErrRange` when the literal is too large. -/
def parseFloat32 (s : Text) : F32 × Option NumError :=
  match special s with
  | some (v, n) => if n = s.length then (v, none) else (F32.zero, some .invalid)
  | none =>
    match readFloat s with
    | none => (F32.zero, some .invalid)
    | some (.inf neg) => (.inf neg, some .range)
    | some v => (v, none)

/-- The digit loop of `ParseUint(s, 10, 64)` on the value `n` read so far: a
character that is not a decimal digit is a syntax error with the value 0; a
digit with which the value would no longer fit 64 bits ends the loop at once
with the largest value and `ErrRange`, the rest of the text unread. -/
def parseUintLoop : Text → Nat → Nat × Option NumError
  | [], n => (n, none)
  | c :: cs, n =>
    if !isDigit c then (0, some .invalid)
    else if (2 ^ 64 - 1) / 10 + 1 ≤ n then (2 ^ 64 - 1, some .range)
    else if (n * 10 + digitVal c) % 2 ^ 64 < n * 10 then (2 ^ 64 - 1, some .range)
    else parseUintLoop cs ((n * 10 + digitVal c) % 2 ^ 64)

/-- Model of `ParseUint(s, 10, 64)`: the empty text is a syntax error. -/
def parseUint (s : Text) : Nat × Option NumError :=
  if s = [] then (0, some .invalid) else parseUintLoop s 0

/-- Model of `ParseInt(s, 10, 0)` with a 64-bit `int`: an optional sign, then
`ParseUint`; a syntax error gives 0, and a value beyond the range of `int64`,
or a range error of `ParseUint`, gives the nearest bound with `ErrRange`. -/
def parseInt (s : Text) : Int × Option NumError :=
  match s with
  | [] => (0, some .invalid)
  | c :: cs =>
    let neg : Bool := c = '-'
    let un := parseUint (if c = '+' ∨ c = '-' then cs else c :: cs)
    if un.2 = some .invalid then (0, some .invalid)
    else if !neg ∧ 2 ^ 63 ≤ un.1 then (2 ^ 63 - 1, some .range)
    else if neg ∧ 2 ^ 63 < un.1 then (-(2 ^ 63), some .range)
    else (if neg then -(un.1 : Int) else (un.1 : Int), none)

/-- Model of `strconv.Atoi` with a 64-bit `int`; its fast path for short texts
gives the same results as `ParseInt(s, 10, 0)`. -/
def atoi (s : Text) : Int × Option NumError := parseInt s

end Strconv

namespace Fmt

/-- Model of the verb `%.<prec>f` applied to a `float32`: the exact value
rounded to `prec` decimals, ties to even; `NaN`, `+Inf` and `-Inf` for the
special values; the sign of a negative number or zero is printed. -/
def fixed (prec : Nat) : F32 → Text
  | .nan => "NaN".toList
  | .inf neg => if neg then "-Inf".toList else "+Inf".toList
  | .fin neg m e =>
    let n := F32.scaledRound (m * 10 ^ prec) 1 (-e)
    let whole := Nat.toDigits 10 (n / 10 ^ prec)
    let frac := (Nat.toDigits 10 (10 ^ prec + n % 10 ^ prec)).drop 1
    (if neg then ['-'] else []) ++ whole ++ (if prec = 0 then [] else '.' :: frac)

end Fmt

/-- What a request or a print statement leaves in the log of a run. -/
inductive Event where
  | get (url : Text)
  | post (url : Text) (form : List (Text × Text))
  | print (s : Text)
  deriving DecidableEq, Repr

/-- How a call ends: it returns a value, the process is terminated by
`os.Exit(1)` (after the message of `exitOnError`), or a run-time panic is raised. -/
inductive Outcome (α : Type) where
  | done (a : α)
  | exit
  | panic
  deriving DecidableEq, Repr

/-- A run: the events so far, in order, and how the call ended. -/
structure Run (α : Type) where
  log : List Event
  out : Outcome α
  deriving DecidableEq, Repr

namespace Run

/-- A call that returns `a` at once. -/
def ret {α : Type} (a : α) : Run α := ⟨[], .done a⟩

/-- Sequencing: the second part runs only if the first one returned. -/
def andThen {α β : Type} (x : Run α) (f : α → Run β) : Run β :=
  match x.out with
  | .done a => ⟨x.log ++ (f a).log, (f a).out⟩
  | .exit => ⟨x.log, .exit⟩
  | .panic => ⟨x.log, .panic⟩

/-- One event. -/
def emit (e : Event) : Run Unit := ⟨[e], .done ()⟩

/-- The process is terminated. -/
def exit {α : Type} : Run α := ⟨[], .exit⟩

/-- A run-time panic. -/
def panic {α : Type} : Run α := ⟨[], .panic⟩

/-- Model of `Selection.Each`: the callback is applied to every element in
order, with its index; here it threads the variables it captures. -/
def each {α β : Type} (f : β → Nat → α → Run β) : Nat → List α → β → Run β
  | _, [], b => ret b
  | i, x :: xs, b => andThen (f b i x) (each f (i + 1) xs)

end Run

/-- A cell of a table row: an element with its name, its text content
(`Text()`), whether it has any child node (`FirstChild != nil`), and for each of
its child elements the `href` attribute, if present. -/
structure Cell where
  tag : Text
  text : Text
  hasChildNode : Bool
  children : List (Option Text)
  deriving DecidableEq, Repr

/-- A row of the grade table: its child elements (`row.Children()`). -/
structure Row where
  cells : List Cell
  deriving DecidableEq, Repr

/-- A fetched and parsed page, as seen through the selectors of the programs. -/
structure Page where
  /-- The attribute `value` of `input[name="LoginTAN"]`, if the element has one. -/
  loginTan : Option Text
  /-- The rows `#formAlleNoten tbody tr`. -/
  rows : List Row
  /-- The attribute `title`, if present, of each element `span > span`. -/
  gradeRows : List (Option Text)
  /-- The text of `#content table tbody` child 6, child 1. -/
  cpText : Text
  deriving DecidableEq, Repr

/-- The portal: the page served for a URL, parsed (`none` when the request or
the reading of the page fails); for a URL without a page, whether the request
itself succeeded and only the reading of the response failed; and the body of
the response to a form post, as its length in bytes (`none` when the request
fails). -/
structure World where
  get : Text → Option Page
  unreadable : Text → Bool
  post : Text → List (Text × Text) → Option Nat

/-- Model of `type module struct`. -/
structure module where
  name : Text
  avg : F32
  cp : F32
  deriving DecidableEq, Repr

/-- Model of `exitOnError`: the process is terminated when there is an error. -/
def exitOnError (err : Bool) : Run Unit :=
  if err then Run.exit else Run.ret ()

/-- The constant `obsURL`. -/
def obsURL : Text := "https://obs.fbi.h-da.de/obs/".toList

/-- The URL of the overview page. -/
def overviewURL : Text := obsURL ++ "index.php?action=noten".toList

/-- The URL of the login form. -/
def loginURL : Text := obsURL ++ "login.php?action=login".toList

/-- The form posted by `login`: the values added to `url.Values`. -/
def loginForm (username password loginTan : Text) : List (Text × Text) :=
  [("username".toList, username), ("password".toList, password), ("LoginTAN".toList, loginTan)]

/-- The text of child `i` of the row (`row.Children().Eq(i).Text()`), empty
when there is no such child. -/
def Row.text (row : Row) (i : Nat) : Text :=
  match row.cells.get? i with
  | some c => c.text
  | none => []

/-- The child elements of child `i` of the row (`row.Children().Eq(i).Children()`). -/
def Row.childrenOf (row : Row) (i : Nat) : List (Option Text) :=
  match row.cells.get? i with
  | some c => c.children
  | none => []

/-- Model of `Selection.Attr("href")` with the flag dropped: the attribute of
the first element of the selection, empty when absent. -/
def hrefOf (sel : List (Option Text)) : Text :=
  match sel with
  | some h :: _ => h
  | _ => []

/-- The 64-bit two's complement integer congruent to `i`. -/
def wrap64 (i : Int) : Int := (i + 2 ^ 63) % 2 ^ 64 - 2 ^ 63

/-- The parsing of a title in the callback of `gradeRows.Each`: the parts
`descParts[0]` and `descParts[1]` of the title cut at `" <= "`, converted by
`Atoi` and `ParseFloat` with the errors dropped. `none` stands for the panic of
the access `descParts[1]` when the title has no separator. -/
def parseTitle (description : Text) : Option (Int × F32) :=
  let descParts := Strings.split description " <= ".toList
  match descParts.get? 0, descParts.get? 1 with
  | some p0, some p1 => some ((Strconv.atoi p0).1, (Strconv.parseFloat32 p1).1)
  | _, _ => none

/-- The body of the callback of `gradeRows.Each` in `calculateAvgGrade`, on the
captured variables `gradesCnt` and `gradesSum`. -/
def gradeRowStep (st : Int × F32) (title : Option Text) : Outcome (Int × F32) :=
  match title with
  | none => .done st
  | some description =>
    match parseTitle description with
    | none => .panic
    | some (newCnt, g) =>
      if F32.eq g (F32.ofInt 5) then .done st
      else .done (newCnt, F32.add st.2 (F32.mul g (F32.ofInt (wrap64 (newCnt - st.1)))))

/-- The traversal `gradeRows.Each` of `calculateAvgGrade`. -/
def gradeLoop : List (Option Text) → Int × F32 → Outcome (Int × F32)
  | [], st => .done st
  | t :: ts, st =>
    match gradeRowStep st t with
    | .done st2 => gradeLoop ts st2
    | .exit => .exit
    | .panic => .panic

/-- The URL of the statistics page of `statID`. -/
def statURL (statID : Text) : Text :=
  obsURL ++ "index.php?action=Notenstatistik&statpar=".toList ++ statID

/-- The part of `calculateAvgGrade` after the page is parsed: `-1` when no
element matches, otherwise `gradesSum / float32(gradesCnt)`. -/
def avgOfPage (gradeRows : List (Option Text)) : Outcome F32 :=
  if gradeRows.length = 0 then .done (F32.ofInt (-1))
  else
    match gradeLoop gradeRows (0, F32.zero) with
    | .done st => .done (F32.div st.2 (F32.ofInt st.1))
    | .exit => .exit
    | .panic => .panic

/-- Model of `calculateAvgGrade` (the same in both programs). -/
def calculateAvgGrade (w : World) (statID : Text) : Run F32 :=
  Run.andThen (Run.emit (.get (statURL statID))) fun _ =>
  match w.get (statURL statID) with
  | none => Run.exit
  | some doc => ⟨[], avgOfPage doc.gradeRows⟩

/-- The statistics identifier of a row: the `href` of the first child element
of child 7, without the prefix `javascript:Statistik('` and the suffix `')`. -/
def statIDOf (row : Row) : Text :=
  Strings.trimSuffix
    (Strings.trimPrefix (hrefOf (row.childrenOf 7)) "javascript:Statistik('".toList) "')".toList

/-- The end of the callback of `rows.Each` in `parseModules`, from the first
`Printf` on (the same in both programs). -/
def fetchAverage (w : World) (grades : List module) (row : Row) (cp : F32) :
    Run (List module) :=
  let moduleName := row.text 3
  Run.andThen (Run.emit (.print ("Module '".toList ++ moduleName ++ "' (".toList ++
    Fmt.fixed 1 cp ++ " cp)...".toList))) fun _ =>
  Run.andThen (calculateAvgGrade w (statIDOf row)) fun avg =>
  if F32.eq avg (F32.ofInt (-1)) then
    Run.andThen (Run.emit (.print " not enough module members.\n".toList)) fun _ =>
    Run.ret grades
  else
    Run.andThen (Run.emit (.print (" ".toList ++ Fmt.fixed 2 avg ++ "\n".toList))) fun _ =>
    Run.ret (grades ++ [⟨moduleName, avg, cp⟩])

/-- Model of `login` (the same in both programs): true exactly when the body of
the response to the form post is longer than 20000 bytes. A failed request for
the root page terminates the process; the errors of the reading of the root
page and of the form post are dropped by the program, so that a root page that
cannot be read panics on the missing document and a failed post panics on the
missing response. -/
def login (w : World) (username password : Text) : Run Bool :=
  Run.andThen (Run.emit (.get obsURL)) fun _ =>
  match w.get obsURL with
  | none => if w.unreadable obsURL then Run.panic else Run.exit
  | some doc =>
    let loginTan := doc.loginTan.getD []
    let values := loginForm username password loginTan
    Run.andThen (Run.emit (.post loginURL values)) fun _ =>
    match w.post loginURL values with
    | none => Run.panic
    | some len => Run.ret (decide (len > 20000))

/-- The loop of `main` over the modules: the variables `cpSum` and `gradeSum`. -/
def aggregate (modules : List module) : F32 × F32 :=
  modules.foldl (fun acc m => (F32.add acc.1 m.cp, F32.add acc.2 (F32.mul m.cp m.avg)))
    (F32.zero, F32.zero)

/-- The total average of `main`: `gradeSum / float32(cpSum)`. -/
def totalAverage (modules : List module) : F32 :=
  F32.div (aggregate modules).2 (aggregate modules).1

/-- The last line printed by `main`. -/
def summary (modules : List module) : Text :=
  "The total average is ".toList ++ Fmt.fixed 2 (totalAverage modules) ++
    " at currently ".toList ++ Fmt.fixed 1 (aggregate modules).1 ++ " cp.\n".toList

/-- Model of `main` from `Logging in...` on, for a given `parseModules`. -/
def mainWith (parseModules : World → Run (List module × Bool)) (w : World)
    (username password : Text) : Run Unit :=
  Run.andThen (Run.emit (.print "Logging in... ".toList)) fun _ =>
  Run.andThen (login w username password) fun ok =>
  if !ok then Run.emit (.print "failed\n".toList)
  else
    Run.andThen (Run.emit (.print "success\n".toList)) fun _ =>
    Run.andThen (Run.emit (.print "Gathering average grades per module\n".toList)) fun _ =>
    Run.andThen (parseModules w) fun r =>
    Run.andThen (exitOnError r.2) fun _ =>
    Run.emit (.print (summary r.1))

namespace Gradeavg

/-- The variable `cp` of the callback in `parseModules` of `gradeavg.go`: the
text of child 8 with the first comma replaced by a period, converted by
`ParseFloat` with the error dropped. -/
def cpOfRow (row : Row) : F32 :=
  (Strconv.parseFloat32 (Strings.replace1 (row.text 8) ",".toList ".".toList)).1

/-- The callback of `rows.Each` in `parseModules` of `gradeavg.go`, on the
captured slice `grades`; `n` is `rows.Length()`. -/
def rowStep (w : World) (n : Nat) (grades : List module) (i : Nat) (row : Row) :
    Run (List module) :=
  if i = 0 ∨ (i : Int) = (n : Int) - 1 ∨ row.cells.length ≠ 10 ∨
      ¬ (row.cells.head?.map (fun c => c.tag) = some "td".toList) then Run.ret grades
  else
    match row.cells.get? 7 with
    | none => Run.panic
    | some c7 =>
      if !c7.hasChildNode then Run.ret grades
      else
        if F32.eq (cpOfRow row) F32.zero then Run.ret grades
        else fetchAverage w grades row (cpOfRow row)

/-- Model of `parseModules` of `gradeavg.go`: the modules and whether an error
is returned. -/
def parseModules (w : World) : Run (List module × Bool) :=
  Run.andThen (Run.emit (.get overviewURL)) fun _ =>
  match w.get overviewURL with
  | none => Run.ret ([], true)
  | some doc =>
    Run.andThen (Run.each (rowStep w doc.rows.length) 0 doc.rows []) fun grades =>
    Run.ret (grades, false)

/-- Model of `main` of `gradeavg.go`. -/
def main (w : World) (username password : Text) : Run Unit :=
  mainWith parseModules w username password

end Gradeavg

namespace Obsgradeavg

/-- Model of `getCPForModule`: any failure, of the request or of the
conversion of the text, terminates the process. -/
def getCPForModule (w : World) (moduleLink : Text) : Run F32 :=
  Run.andThen (Run.emit (.get moduleLink)) fun _ =>
  match w.get moduleLink with
  | none => Run.exit
  | some doc =>
    let r := Strconv.parseFloat32 (Strings.replace1 doc.cpText ",".toList ".".toList)
    Run.andThen (exitOnError r.2.isSome) fun _ =>
    Run.ret r.1

/-- The callback of `rows.Each` in `parseModules` of `obsgradeavg.go`. -/
def rowStep (w : World) (n : Nat) (grades : List module) (i : Nat) (row : Row) :
    Run (List module) :=
  if i = 0 ∨ (i : Int) = (n : Int) - 1 ∨ row.cells.length ≠ 9 ∨
      (row.childrenOf 7).length = 0 then Run.ret grades
  else
    let grade := (Strconv.parseFloat32 (row.text 6)).1
    if F32.eq grade (F32.ofInt 5) then Run.ret grades
    else
      let mu := hrefOf (row.childrenOf 4)
      Run.andThen (getCPForModule w mu) fun cp =>
      if F32.eq cp F32.zero then Run.ret grades
      else if Strings.contains "(PVL)".toList (row.text 3) then Run.ret grades
      else fetchAverage w grades row cp

/-- Model of `parseModules` of `obsgradeavg.go`; the page is the overview
after its conversion from windows-1252. -/
def parseModules (w : World) : Run (List module × Bool) :=
  Run.andThen (Run.emit (.get overviewURL)) fun _ =>
  match w.get overviewURL with
  | none => Run.ret ([], true)
  | some doc =>
    Run.andThen (Run.each (rowStep w doc.rows.length) 0 doc.rows []) fun grades =>
    Run.ret (grades, false)

/-- Model of `main` of `obsgradeavg.go`. -/
def main (w : World) (username password : Text) : Run Unit :=
  mainWith parseModules w username password

end Obsgradeavg

/-! ## Closed forms and sample data used in the statements -/

/-- The `float32` sum of a list, accumulated from left to right from `0`. -/
def F32.sum (xs : List F32) : F32 := xs.foldl F32.add F32.zero

/-- The entries of a statistics page: the titles that are present, parsed;
`none` when one of them has no separator. -/
def titledEntries : List (Option Text) → Option (List (Int × F32))
  | [] => some []
  | none :: ts => titledEntries ts
  | some d :: ts =>
    match parseTitle d, titledEntries ts with
    | some e, some es => some (e :: es)
    | _, _ => none

/-- The entries whose grade is not the fail grade 5. -/
def passing (es : List (Int × F32)) : List (Int × F32) :=
  es.filter fun e => !F32.eq e.2 (F32.ofInt 5)

/-- The contribution `g * float32(c - prev)` of an entry `(c, g)` after the
count `prev`, the difference being taken in `int`. -/
def contribution (prev : Int) (e : Int × F32) : F32 :=
  F32.mul e.2 (F32.ofInt (wrap64 (e.1 - prev)))

/-- The average over the passing entries: each one weighted by the increase of
the count since the preceding passing entry (since 0 for the first), the sum
divided by the count of the last passing entry (by 0 if there is none). -/
def passAverage (es : List (Int × F32)) : F32 :=
  F32.div
    (F32.sum (List.zipWith contribution (0 :: (passing es).map Prod.fst) (passing es)))
    (F32.ofInt (((passing es).map Prod.fst).getLast?.getD 0))

/-- The average in the words of the specification: each entry weighted by the
increase of the count since the entry just before it, fail entries included
(0 for the first); the fail entries left out of the sum; the sum divided by the
count of the last entry, fail entries included. -/
def claimedAverage (es : List (Int × F32)) : F32 :=
  F32.div
    (F32.sum (((List.zip (0 :: es.map Prod.fst) es).filter
      fun pe => !F32.eq pe.2.2 (F32.ofInt 5)).map fun pe => contribution pe.1 pe.2))
    (F32.ofInt ((es.map Prod.fst).getLast?.getD 0))

/-- The weighted average in the words of the specification, in `float32`:
the sum of `cp * avg` over the sum of `cp`. -/
def weightedAverage (modules : List module) : F32 :=
  F32.div (F32.sum (modules.map fun m => F32.mul m.cp m.avg)) (F32.sum (modules.map fun m => m.cp))

/-- The `float32` nearest to `n / 2^k`. -/
def F32.dyadic (k : Nat) (n : Int) : F32 := F32.ofFrac n (2 ^ k)

/-- The value of a finite float in units of `2^-k`, rounded down to an
integer; 0 for NaN and the infinities. -/
def F32.units (k : Nat) : F32 → Int
  | .fin n m e => F32.num n m e * 2 ^ k / F32.den e
  | _ => 0

/-- The float is finite and its value is exactly `N / 2^k`. -/
def F32.IsVal (k : Nat) (N : Int) : F32 → Prop
  | .fin n m e => F32.num n m e * 2 ^ k = N * F32.den e
  | _ => False

/-- The float is finite and an integer multiple of `2^-k`. -/
def F32.OnGrid (k : Nat) (x : F32) : Prop := F32.IsVal k (F32.units k x) x

instance (k : Nat) (N : Int) : (x : F32) → Decidable (F32.IsVal k N x)
  | .fin n m e => inferInstanceAs (Decidable (F32.num n m e * 2 ^ k = N * F32.den e))
  | .nan => inferInstanceAs (Decidable False)
  | .inf _ => inferInstanceAs (Decidable False)

instance (k : Nat) (x : F32) : Decidable (F32.OnGrid k x) :=
  inferInstanceAs (Decidable (F32.IsVal k (F32.units k x) x))

/-- The number written by a text of decimal digits. -/
def decimalValue (digits : Text) : Nat :=
  digits.foldl (fun n c => n * 10 + Strconv.digitVal c) 0

/-- A plain cell with the given text. -/
def sampleCell (t : String) : Cell := ⟨"td".toList, t.toList, !t.isEmpty, []⟩

/-- A cell that holds one link with the given `href`. -/
def sampleLink (h : String) : Cell := ⟨"td".toList, "x".toList, true, [some h.toList]⟩

/-- A row of the overview of `gradeavg.go`: ten cells, the name in cell 3, the
statistics link in cell 7 and the credit points in cell 8. -/
def sampleRow (name cp stat : String) : Row :=
  ⟨[sampleCell "1", sampleCell "2", sampleCell "3", sampleCell name, sampleCell "5",
    sampleCell "6", sampleCell "7", sampleLink ("javascript:Statistik('" ++ stat ++ "')"),
    sampleCell cp, sampleCell "10"]⟩

/-- A row of the overview of `obsgradeavg.go`: nine cells, the name in cell 3,
the link to the module page in cell 4, the grade in cell 6 and the statistics
link in cell 7. -/
def sampleRow9 (name link grade stat : String) : Row :=
  ⟨[sampleCell "1", sampleCell "2", sampleCell "3", sampleCell name, sampleLink link,
    sampleCell "6", sampleCell grade, sampleLink ("javascript:Statistik('" ++ stat ++ "')"),
    sampleCell "9"]⟩

/-- A portal: the login page, the overview with the given rows between a header
and a footer row, a statistics page for each listed identifier, a module page
for each listed link, and a reply of `bodyLen` bytes to the login form. -/
def samplePortal (rows : List Row) (stats : List (String × List (Option String)))
    (pages : List (String × String)) (bodyLen : Nat) : World where
  get url :=
    if url = obsURL then some ⟨some "tan".toList, [], [], []⟩
    else if url = overviewURL then some ⟨none, ⟨[]⟩ :: rows ++ [⟨[]⟩], [], []⟩
    else
      match stats.find? (fun p => statURL p.1.toList = url) with
      | some p => some ⟨none, [], p.2.map (Option.map String.toList), []⟩
      | none =>
        match pages.find? (fun p => p.1.toList = url) with
        | some p => some ⟨none, [], [], p.2.toList⟩
        | none => none
  unreadable _ := false
  post _ _ := some bodyLen

/-- The statistics page of the example of the specification. -/
def threeEntries : List (Option Text) :=
  [some "3 <= 2.0".toList, some "5 <= 5.0".toList, some "8 <= 3.0".toList]

/-- The two records of the end-to-end example of the specification. -/
def twoModules : List module :=
  [⟨"Module A".toList, F32.ofFrac 23 10, F32.ofInt 5⟩,
   ⟨"Module B".toList, F32.ofFrac 17 10, F32.ofInt 10⟩]

/-- Three records whose order matters: one weight of `2^24` and two of 1. -/
def bigFirst : List module :=
  [⟨"A".toList, F32.ofInt 1, F32.ofInt 16777216⟩, ⟨"B".toList, F32.ofInt 2, F32.ofInt 1⟩,
   ⟨"C".toList, F32.ofInt 2, F32.ofInt 1⟩]

/-- The same three records with the large weight last. -/
def bigLast : List module :=
  [⟨"B".toList, F32.ofInt 2, F32.ofInt 1⟩, ⟨"C".toList, F32.ofInt 2, F32.ofInt 1⟩,
   ⟨"A".toList, F32.ofInt 1, F32.ofInt 16777216⟩]

/-- Three records whose credit points are multiples of 1/2 and whose averages
are multiples of 1/4. -/
def threeModules : List module :=
  [⟨"A".toList, F32.ofFrac 5 2, F32.ofInt 5⟩, ⟨"B".toList, F32.ofFrac 7 4, F32.ofFrac 15 2⟩,
   ⟨"C".toList, F32.ofFrac 13 4, F32.ofInt 10⟩]

/-- The records of `threeModules` in another order. -/
def threeModulesReordered : List module :=
  [⟨"C".toList, F32.ofFrac 13 4, F32.ofInt 10⟩, ⟨"A".toList, F32.ofFrac 5 2, F32.ofInt 5⟩,
   ⟨"B".toList, F32.ofFrac 7 4, F32.ofFrac 15 2⟩]

/-- What a returned callback of `rows.Each` may have done: nothing, or appended
one record. -/
def Appended (w : World) (row : Row) (cp : F32) (grades g : List module) : Prop :=
  g = grades ∨ ∃ avg, g = grades ++ [⟨row.text 3, avg, cp⟩] ∧
    (calculateAvgGrade w (statIDOf row)).out = .done avg ∧ F32.eq avg (F32.ofInt (-1)) = false

/-- A record of the list comes from a row of the overview whose statistics
page was fetched and has at least one entry. -/
def FromRowWithEntries (w : World) (rows : List Row) (m : module) : Prop :=
  ∃ row ∈ rows, m.name = row.text 3 ∧
    ∃ d, w.get (statURL (statIDOf row)) = some d ∧ d.gradeRows ≠ []

/-- The run of `main` after a failed login. -/
def failedLogin (username password loginTan : Text) : Run Unit :=
  ⟨[.print "Logging in... ".toList, .get obsURL,
    .post loginURL (loginForm username password loginTan), .print "failed\n".toList], .done ()⟩

/-- The mantissa after the digits `ds` have been pushed. -/
def pushDigits (acc : Strconv.Mantissa) (ds : Text) : Strconv.Mantissa :=
  ds.foldl (fun a c => a.push 10 (Strconv.digitVal c)) acc

/-! # Theorems -/

set_option maxRecDepth 100000

/-! ## Reference values of the library models -/

/-- Rounding to `float32`: 0.1 is `0x3DCCCCCD`, `2^24 + 1` is a tie that goes to
the even `2^24`, `2^24 + 3` goes up to `2^24 + 4`, the largest finite number is
`(2^24 - 1) * 2^104`, the first number that rounds to infinity is
`2^128 - 2^103`, the smallest positive number is `2^-149`, and half of it is a
tie that goes to zero. -/
theorem float32_rounding_values :
    F32.ofFrac 1 10 = .fin false 13421773 (-27) ∧
    F32.ofInt 16777217 = .fin false 8388608 1 ∧
    F32.ofInt 16777219 = .fin false 8388610 1 ∧
    F32.ofInt (2 ^ 128 - 2 ^ 103 - 1) = .fin false 16777215 104 ∧
    F32.ofInt (2 ^ 128 - 2 ^ 103) = .inf false ∧
    F32.ofFrac 1 (2 ^ 149) = .fin false 1 (-149) ∧
    F32.ofFrac 1 (2 ^ 150) = .fin false 0 (-149) ∧
    F32.ofFrac 3 (2 ^ 150) = .fin false 2 (-149) ∧
    F32.ofFrac (-1) 3 = .fin true 11184811 (-25) := by
  decide

/-- Arithmetic of `float32`: `0.1 + 0.2` is the float 0.3, `1 / 3` is
`0x3EAAAAAB`, `0 / 0` is NaN, `-3 / 0` is `-Inf`, `Inf - Inf` is NaN, the sum
of `x` and `-x` is `+0`, and the two zeros compare equal. -/
theorem float32_arithmetic_values :
    F32.add (F32.ofFrac 1 10) (F32.ofFrac 2 10) = F32.ofFrac 3 10 ∧
    F32.div (F32.ofInt 1) (F32.ofInt 3) = .fin false 11184811 (-25) ∧
    F32.div F32.zero F32.zero = .nan ∧
    F32.div (F32.ofInt (-3)) F32.zero = .inf true ∧
    F32.add (.inf false) (.inf true) = .nan ∧
    F32.add (F32.ofInt 7) (F32.ofInt (-7)) = F32.zero ∧
    F32.mul (F32.ofInt (-2)) F32.zero = .fin true 0 (-149) ∧
    F32.eq (.fin true 0 (-149)) F32.zero = true ∧
    F32.eq .nan .nan = false := by
  decide

/-- Conversions of `strconv`: well-formed literals, the special values, syntax
errors (value 0) and range errors (infinite value). -/
theorem strconv_values :
    Strconv.parseFloat32 "4.5".toList = (F32.ofFrac 9 2, none) ∧
    Strconv.parseFloat32 "-3.0".toList = (F32.ofInt (-3), none) ∧
    Strconv.parseFloat32 ".5".toList = (F32.ofFrac 1 2, none) ∧
    Strconv.parseFloat32 "1e2".toList = (F32.ofInt 100, none) ∧
    Strconv.parseFloat32 "1_000".toList = (F32.ofInt 1000, none) ∧
    Strconv.parseFloat32 "0x1p-2".toList = (F32.ofFrac 1 4, none) ∧
    Strconv.parseFloat32 "NaN".toList = (.nan, none) ∧
    Strconv.parseFloat32 "-Inf".toList = (.inf true, none) ∧
    Strconv.parseFloat32 [] = (F32.zero, some .invalid) ∧
    Strconv.parseFloat32 "n/a".toList = (F32.zero, some .invalid) ∧
    Strconv.parseFloat32 "4,5".toList = (F32.zero, some .invalid) ∧
    Strconv.parseFloat32 "1e40".toList = (.inf false, some .range) ∧
    Strconv.parseFloat32 "1e-50".toList = (F32.zero, none) := by
  decide

/-- Conversions of `Atoi`: a syntax error gives 0, a number beyond `int64`
gives the nearest bound, and once the digits read no longer fit 64 bits the
rest of the text is not looked at. -/
theorem atoi_values :
    Strconv.atoi "12".toList = (12, none) ∧
    Strconv.atoi "-12".toList = (-12, none) ∧
    Strconv.atoi "abc".toList = (0, some .invalid) ∧
    Strconv.atoi [] = (0, some .invalid) ∧
    Strconv.atoi "+7".toList = (7, none) ∧
    Strconv.atoi "-".toList = (0, some .invalid) ∧
    Strconv.atoi "1_0".toList = (0, some .invalid) ∧
    Strconv.atoi "9223372036854775807".toList = (9223372036854775807, none) ∧
    Strconv.atoi "9223372036854775808".toList = (9223372036854775807, some .range) ∧
    Strconv.atoi "-9223372036854775808".toList = (-9223372036854775808, none) ∧
    Strconv.atoi "-9223372036854775809".toList = (-9223372036854775808, some .range) ∧
    Strconv.atoi "9223372036854775808x".toList = (0, some .invalid) ∧
    Strconv.atoi "18446744073709551615".toList = (9223372036854775807, some .range) ∧
    Strconv.atoi "18446744073709551616x".toList = (9223372036854775807, some .range) ∧
    Strconv.atoi "99999999999999999999x".toList = (9223372036854775807, some .range) ∧
    Strconv.atoi "-99999999999999999999x".toList = (-9223372036854775808, some .range) ∧
    avgOfPage [some "99999999999999999999x <= 2.0".toList] = .done (F32.ofInt 2) := by
  decide

/-- Formatting and splitting: `%.2f` rounds the exact value, ties to even, and
`Split` returns the whole string when the separator does not occur. -/
theorem fmt_and_strings_values :
    Fmt.fixed 2 (F32.ofFrac 1 8) = "0.12".toList ∧
    Fmt.fixed 2 (F32.ofFrac 3 8) = "0.38".toList ∧
    Fmt.fixed 2 (F32.ofFrac 21 8) = "2.62".toList ∧
    Fmt.fixed 1 (F32.ofInt (-3)) = "-3.0".toList ∧
    Fmt.fixed 2 .nan = "NaN".toList ∧
    Fmt.fixed 1 (.inf false) = "+Inf".toList ∧
    Strings.split "3 <= 2.0".toList " <= ".toList = ["3".toList, "2.0".toList] ∧
    Strings.split "a <= b <= c".toList " <= ".toList = ["a".toList, "b".toList, "c".toList] ∧
    Strings.split "abc".toList " <= ".toList = ["abc".toList] ∧
    Strings.split [] " <= ".toList = [[]] ∧
    Strings.replace1 "4,5,6".toList ",".toList ".".toList = "4.5,6".toList ∧
    Strings.trimSuffix (Strings.trimPrefix "javascript:Statistik('42')".toList
      "javascript:Statistik('".toList) "')".toList = "42".toList ∧
    Strings.contains "(PVL)".toList "Mathe (PVL)".toList = true := by
  decide

/-! ## Runs -/

theorem Run.andThen_emit {β : Type} (e : Event) (f : Unit → Run β) :
    Run.andThen (Run.emit e) f = ⟨e :: (f ()).log, (f ()).out⟩ := rfl

theorem Run.andThen_out_done {α β : Type} (x : Run α) (f : α → Run β) (b : β) :
    (Run.andThen x f).out = .done b ↔ ∃ a, x.out = .done a ∧ (f a).out = .done b := by
  unfold Run.andThen
  cases h : x.out with
  | done a => simp
  | exit => simp
  | panic => simp

theorem Run.andThen_out_of_done {α β : Type} (x : Run α) (f : α → Run β) (a : α)
    (h : x.out = .done a) : (Run.andThen x f).out = (f a).out := by
  unfold Run.andThen
  rw [h]

theorem Run.each_inv {α β : Type} (P : β → Prop) (f : β → Nat → α → Run β) (xs : List α)
    (hf : ∀ b i x b2, x ∈ xs → P b → (f b i x).out = .done b2 → P b2) :
    ∀ (i : Nat) (b b2 : β), P b → (Run.each f i xs b).out = .done b2 → P b2 := by
  induction xs with
  | nil =>
    intro i b b2 hb h
    simp only [Run.each, Run.ret, Outcome.done.injEq] at h
    exact h ▸ hb
  | cons x xs ih =>
    intro i b b2 hb h
    simp only [Run.each] at h
    obtain ⟨b1, h1, h2⟩ := (Run.andThen_out_done _ _ _).1 h
    have hb1 : P b1 := hf b i x b1 (List.mem_cons_self _ _) hb h1
    exact ih (fun b i y b2 hy => hf b i y b2 (List.mem_cons_of_mem _ hy)) (i + 1) b1 b2 hb1 h2

/-! ## The average of a statistics page -/

theorem calculateAvgGrade_eq (w : World) (statID : Text) (doc : Page)
    (h : w.get (statURL statID) = some doc) :
    calculateAvgGrade w statID = ⟨[.get (statURL statID)], avgOfPage doc.gradeRows⟩ := by
  simp [calculateAvgGrade, Run.andThen_emit, h]

theorem calculateAvgGrade_out (w : World) (statID : Text) :
    (calculateAvgGrade w statID).out =
      match w.get (statURL statID) with
      | none => .exit
      | some doc => avgOfPage doc.gradeRows := by
  simp only [calculateAvgGrade, Run.andThen_emit]
  cases w.get (statURL statID) <;> rfl

theorem avgOfPage_nil : avgOfPage [] = .done (F32.ofInt (-1)) := rfl

theorem getLast?_getD_cons (c d : Int) (cs : List Int) :
    (c :: cs).getLast?.getD d = cs.getLast?.getD c := by
  cases cs with
  | nil => rfl
  | cons x xs =>
    rw [List.getLast?_cons_cons]
    cases h : (x :: xs).getLast? with
    | none => simp at h
    | some y => rfl

theorem gradeLoop_eq (page : List (Option Text)) :
    ∀ (es : List (Int × F32)) (st : Int × F32), titledEntries page = some es →
      gradeLoop page st = .done
        (((passing es).map Prod.fst).getLast?.getD st.1,
         (List.zipWith contribution (st.1 :: (passing es).map Prod.fst) (passing es)).foldl
           F32.add st.2) := by
  induction page with
  | nil =>
    intro es st h
    simp only [titledEntries, Option.some.injEq] at h
    subst h
    rfl
  | cons t ts ih =>
    intro es st h
    cases t with
    | none =>
      simp only [titledEntries] at h
      simp only [gradeLoop, gradeRowStep]
      exact ih es st h
    | some d =>
      simp only [titledEntries] at h
      cases hp : parseTitle d with
      | none => rw [hp] at h; cases h
      | some e =>
        cases hts : titledEntries ts with
        | none => rw [hp, hts] at h; cases h
        | some es2 =>
          rw [hp, hts] at h
          simp only [Option.some.injEq] at h
          subst h
          obtain ⟨newCnt, g⟩ := e
          by_cases hg : F32.eq g (F32.ofInt 5) = true
          · have hpass : passing ((newCnt, g) :: es2) = passing es2 := by
              simp [passing, List.filter_cons, hg]
            simp only [gradeLoop, gradeRowStep, hp, hg, if_true, hpass]
            exact ih es2 st hts
          · have hpass : passing ((newCnt, g) :: es2) = (newCnt, g) :: passing es2 := by
              simp [passing, List.filter_cons, hg]
            have hg2 : F32.eq g (F32.ofInt 5) = false := by simpa using hg
            simp only [gradeLoop, gradeRowStep, hp, hg2, hpass, Bool.false_eq_true, if_false]
            rw [ih es2 _ hts]
            simp only [List.map_cons, getLast?_getD_cons, List.zipWith_cons_cons,
              List.foldl_cons, contribution]

theorem gradeLoop_append (pre rest : List (Option Text)) :
    ∀ st : Int × F32, gradeLoop (pre ++ rest) st =
      match gradeLoop pre st with
      | .done st2 => gradeLoop rest st2
      | .exit => .exit
      | .panic => .panic := by
  induction pre with
  | nil => intro st; rfl
  | cons t ts ih =>
    intro st
    simp only [List.cons_append, gradeLoop]
    cases gradeRowStep st t with
    | done st2 => exact ih st2
    | exit => rfl
    | panic => rfl

theorem avgOfPage_eq (page : List (Option Text)) (es : List (Int × F32))
    (hne : page ≠ []) (hes : titledEntries page = some es) :
    avgOfPage page = .done (passAverage es) := by
  have hlen : ¬ page.length = 0 := by
    intro h
    exact hne (List.length_eq_zero.1 h)
  simp only [avgOfPage, hlen, if_false, gradeLoop_eq page es _ hes, passAverage, F32.sum]

/-- C1 (counterexample): for the entries (3, 2.0), (5, 5.0), (8, 3.0) the
formula of the specification gives 15/8 = 1.875, and `calculateAvgGrade`
returns 21/8 = 2.625: the fail entry is skipped before the count is stored, so
the last entry is weighted by 8 - 3 = 5. -/
theorem three_entries_average_is_not_1_875 :
    titledEntries threeEntries = some [(3, F32.ofInt 2), (5, F32.ofInt 5), (8, F32.ofInt 3)] ∧
    claimedAverage [(3, F32.ofInt 2), (5, F32.ofInt 5), (8, F32.ofInt 3)] = F32.ofFrac 15 8 ∧
    (calculateAvgGrade (samplePortal [] [("s", [some "3 <= 2.0", some "5 <= 5.0",
      some "8 <= 3.0"])] [] 0) "s".toList).out = .done (F32.ofFrac 21 8) ∧
    F32.ofFrac 21 8 ≠ F32.ofFrac 15 8 ∧
    avgOfPage [some "3 <= 2.0".toList, some "5 <= 5.0".toList] = .done (F32.ofInt 2) ∧
    claimedAverage [(3, F32.ofInt 2), (5, F32.ofInt 5)] = F32.ofFrac 6 5 := by
  decide

/-- C1 (amended): for a statistics page with at least one element, all of whose
titles contain the separator, `calculateAvgGrade` returns the `float32` quotient
of the sum over the entries with grade other than 5 of `g * float32(c - prev)`,
where `prev` is the count of the preceding entry with grade other than 5 (0 for
the first), by the count of the last such entry: a fail entry changes neither
the sum nor the count. For the entries (3, 2.0), (5, 5.0), (8, 3.0) this is
`(2.0*3 + 3.0*5) / 8 = 2.625`. -/
theorem average_over_passing_entries (w : World) (statID : Text) (doc : Page)
    (es : List (Int × F32)) (hget : w.get (statURL statID) = some doc)
    (hne : doc.gradeRows ≠ []) (hes : titledEntries doc.gradeRows = some es) :
    (calculateAvgGrade w statID).out = .done (passAverage es) ∧
    passAverage [(3, F32.ofInt 2), (5, F32.ofInt 5), (8, F32.ofInt 3)] = F32.ofFrac 21 8 ∧
    F32.toRat (F32.ofFrac 21 8) = some (21 / 8) := by
  refine ⟨?_, by decide, ?_⟩
  · rw [calculateAvgGrade_out, hget]
    exact avgOfPage_eq doc.gradeRows es hne hes
  · have h : F32.ofFrac 21 8 = .fin false 11010048 (-22) := by decide
    rw [h]
    norm_num [F32.toRat, F32.num, F32.den, Int.toNat]

/-- Witness of C1: the page of the example. -/
theorem average_over_passing_entries_witness :
    (calculateAvgGrade (samplePortal [] [("s", [some "3 <= 2.0", some "5 <= 5.0",
      some "8 <= 3.0"])] [] 0) "s".toList).out
      = .done (passAverage [(3, F32.ofInt 2), (5, F32.ofInt 5), (8, F32.ofInt 3)]) :=
  (average_over_passing_entries
    (samplePortal [] [("s", [some "3 <= 2.0", some "5 <= 5.0", some "8 <= 3.0"])] [] 0)
    "s".toList ⟨none, [], threeEntries, []⟩
    [(3, F32.ofInt 2), (5, F32.ofInt 5), (8, F32.ofInt 3)]
    (by decide) (by decide) (by decide)).1

theorem fetchAverage_out (w : World) (grades : List module) (row : Row) (cp : F32) :
    (fetchAverage w grades row cp).out =
      match (calculateAvgGrade w (statIDOf row)).out with
      | .done avg =>
        if F32.eq avg (F32.ofInt (-1)) then .done grades
        else .done (grades ++ [⟨row.text 3, avg, cp⟩])
      | .exit => .exit
      | .panic => .panic := by
  simp only [fetchAverage, Run.andThen_emit]
  unfold Run.andThen
  cases h : (calculateAvgGrade w (statIDOf row)).out with
  | done avg =>
    simp only
    split <;> rfl
  | exit => rfl
  | panic => rfl

theorem div_zero_ne_minus_one (s : F32) :
    (F32.div s (F32.ofInt 0) = .nan ∨ ∃ neg, F32.div s (F32.ofInt 0) = .inf neg) ∧
    F32.eq (F32.div s (F32.ofInt 0)) (F32.ofInt (-1)) = false := by
  have h0 : F32.ofInt 0 = .fin false 0 (-149) := by decide
  have h1 : F32.ofInt (-1) = .fin true 8388608 (-23) := by decide
  rw [h0, h1]
  cases s with
  | nan => exact ⟨Or.inl rfl, rfl⟩
  | inf a => exact ⟨Or.inr ⟨xor a false, rfl⟩, rfl⟩
  | fin n m e =>
    by_cases hm : m = 0
    · subst hm
      exact ⟨Or.inl rfl, rfl⟩
    · have hd : F32.div (.fin n m e) (.fin false 0 (-149)) = .inf (xor n false) := by
        simp [F32.div, hm]
      rw [hd]
      exact ⟨Or.inr ⟨_, rfl⟩, rfl⟩

/-- C4 (the code where the claim fails): when the statistics page of a row has
at least one element and the traversal of `calculateAvgGrade` ends with the
divisor `gradesCnt = 0`, the average returned is NaN or an infinity, never the
sentinel `-1`, and the callback of `parseModules` appends the module with that
average. So for a page whose only entry is `4 <= 5.0`, or whose element has
no title: the module is retained with the average NaN, and the total average
printed by `main` is NaN. -/
theorem zero_divisor_page_is_retained (w : World) (grades : List module) (row : Row) (cp : F32)
    (doc : Page) (s : F32) (hget : w.get (statURL (statIDOf row)) = some doc)
    (hne : doc.gradeRows ≠ []) (hloop : gradeLoop doc.gradeRows (0, F32.zero) = .done (0, s)) :
    (calculateAvgGrade w (statIDOf row)).out = .done (F32.div s (F32.ofInt 0)) ∧
    (F32.div s (F32.ofInt 0) = .nan ∨ ∃ neg, F32.div s (F32.ofInt 0) = .inf neg) ∧
    (fetchAverage w grades row cp).out
      = .done (grades ++ [⟨row.text 3, F32.div s (F32.ofInt 0), cp⟩]) ∧
    avgOfPage [some "4 <= 5.0".toList] = .done .nan ∧
    avgOfPage [none] = .done .nan ∧
    (Gradeavg.parseModules
      (samplePortal [sampleRow "F" "2,5" "f"] [("f", [some "4 <= 5.0"])] [] 20001)).out
      = .done ([⟨"F".toList, .nan, F32.ofFrac 5 2⟩], false) ∧
    summary [⟨"F".toList, .nan, F32.ofFrac 5 2⟩]
      = "The total average is NaN at currently 2.5 cp.\n".toList := by
  have hlen : ¬ doc.gradeRows.length = 0 := fun h => hne (List.length_eq_zero.1 h)
  have havg : (calculateAvgGrade w (statIDOf row)).out = .done (F32.div s (F32.ofInt 0)) := by
    rw [calculateAvgGrade_out, hget]
    simp only [avgOfPage, hlen, if_false, hloop]
  refine ⟨havg, (div_zero_ne_minus_one s).1, ?_, by decide, by decide, by decide, by decide⟩
  rw [fetchAverage_out, havg]
  simp only [(div_zero_ne_minus_one s).2, Bool.false_eq_true, if_false]

/-- Witness of C4: the row of a module whose statistics page has the single
entry `4 <= 5.0`. -/
theorem zero_divisor_page_is_retained_witness :
    (fetchAverage (samplePortal [sampleRow "F" "2,5" "f"] [("f", [some "4 <= 5.0"])] [] 20001)
      [] (sampleRow "F" "2,5" "f") (F32.ofFrac 5 2)).out
      = .done [⟨"F".toList, F32.div F32.zero (F32.ofInt 0), F32.ofFrac 5 2⟩] :=
  (zero_divisor_page_is_retained
    (samplePortal [sampleRow "F" "2,5" "f"] [("f", [some "4 <= 5.0"])] [] 20001) []
    (sampleRow "F" "2,5" "f") (F32.ofFrac 5 2) ⟨none, [], [some "4 <= 5.0".toList], []⟩ F32.zero
    (by decide) (by decide) (by decide)).2.2.1

theorem Strings.splitGo_of_not_contains (sep : Text) (s : Text) :
    ∀ cur : Text, Strings.contains sep s = false →
      Strings.splitGo sep s 0 cur = [cur.reverse ++ s] := by
  induction s with
  | nil => intro cur _; simp [Strings.splitGo]
  | cons c cs ih =>
    intro cur h
    simp only [Strings.contains, Bool.or_eq_false_iff] at h
    simp only [Strings.splitGo, h.1, Bool.false_eq_true, if_false]
    rw [ih (c :: cur) h.2]
    simp

theorem parseTitle_of_not_contains (title : Text)
    (h : Strings.contains " <= ".toList title = false) : parseTitle title = none := by
  have hne : " <= ".toList ≠ [] := by decide
  simp only [parseTitle, Strings.split, hne, if_false,
    Strings.splitGo_of_not_contains _ title [] h]
  rfl

/-- C7 (the code where the claim fails): a title that does not contain the
separator `" <= "` is cut into a single part, the access `descParts[1]` is out
of range, and `calculateAvgGrade` panics as soon as the traversal reaches such
a title; so for the titles `abc` and the empty title, and `main` panics with
them. -/
theorem title_without_separator_panics (w : World) (statID : Text) (doc : Page)
    (pre post : List (Option Text)) (title : Text) (es : List (Int × F32))
    (hget : w.get (statURL statID) = some doc)
    (hrows : doc.gradeRows = pre ++ some title :: post)
    (hpre : titledEntries pre = some es)
    (hsep : Strings.contains " <= ".toList title = false) :
    Strings.split title " <= ".toList = [title] ∧
    parseTitle title = none ∧
    (calculateAvgGrade w statID).out = .panic ∧
    parseTitle "abc".toList = none ∧
    parseTitle [] = none ∧
    (Gradeavg.main
      (samplePortal [sampleRow "G" "5,0" "s"] [("s", [some "abc"])] [] 20001) [] []).out
      = .panic := by
  have hne : " <= ".toList ≠ [] := by decide
  refine ⟨?_, parseTitle_of_not_contains title hsep, ?_, by decide, by decide, by decide⟩
  · simp only [Strings.split, hne, if_false, Strings.splitGo_of_not_contains _ title [] hsep]
    rfl
  · rw [calculateAvgGrade_out, hget]
    have hlen : ¬ (pre ++ some title :: post).length = 0 := by simp
    simp only [avgOfPage, hrows, hlen, if_false, gradeLoop_append, gradeLoop_eq pre es _ hpre,
      gradeLoop, gradeRowStep, parseTitle_of_not_contains title hsep]

/-- Witness of C7: a statistics page whose second title is `abc`. -/
theorem title_without_separator_panics_witness :
    (calculateAvgGrade (samplePortal [] [("s", [some "3 <= 2.0", some "abc"])] [] 20001)
      "s".toList).out = .panic :=
  (title_without_separator_panics
    (samplePortal [] [("s", [some "3 <= 2.0", some "abc"])] [] 20001) "s".toList
    ⟨none, [], [some "3 <= 2.0".toList, some "abc".toList], []⟩
    [some "3 <= 2.0".toList] [] "abc".toList [(3, F32.ofInt 2)]
    (by decide) rfl (by decide) (by decide)).2.2.1

/-! ## The rows of the overview -/

theorem fetchAverage_appended (w : World) (grades g : List module) (row : Row) (cp : F32)
    (h : (fetchAverage w grades row cp).out = .done g) : Appended w row cp grades g := by
  rw [fetchAverage_out] at h
  cases hc : (calculateAvgGrade w (statIDOf row)).out with
  | done avg =>
    rw [hc] at h
    simp only at h
    by_cases he : F32.eq avg (F32.ofInt (-1)) = true
    · rw [if_pos he] at h
      exact Or.inl (Outcome.done.inj h).symm
    · rw [if_neg he] at h
      exact Or.inr ⟨avg, (Outcome.done.inj h).symm, hc, by simpa using he⟩
  | exit => rw [hc] at h; cases h
  | panic => rw [hc] at h; cases h

theorem gradeavg_rowStep_appended (w : World) (n i : Nat) (grades g : List module) (row : Row)
    (h : (Gradeavg.rowStep w n grades i row).out = .done g) :
    g = grades ∨ (F32.eq (Gradeavg.cpOfRow row) F32.zero = false ∧
      Appended w row (Gradeavg.cpOfRow row) grades g) := by
  unfold Gradeavg.rowStep at h
  split at h
  · exact Or.inl (Outcome.done.inj h).symm
  · split at h
    · cases h
    · split at h
      · exact Or.inl (Outcome.done.inj h).symm
      · split at h
        · exact Or.inl (Outcome.done.inj h).symm
        · rename_i hz
          exact Or.inr ⟨by simpa using hz, fetchAverage_appended _ _ _ _ _ h⟩

theorem obs_rowStep_appended (w : World) (n i : Nat) (grades g : List module) (row : Row)
    (h : (Obsgradeavg.rowStep w n grades i row).out = .done g) :
    g = grades ∨ ∃ cp, F32.eq cp F32.zero = false ∧
      (Obsgradeavg.getCPForModule w (hrefOf (row.childrenOf 4))).out = .done cp ∧
      Appended w row cp grades g := by
  unfold Obsgradeavg.rowStep at h
  split at h
  · exact Or.inl (Outcome.done.inj h).symm
  · simp only at h
    split at h
    · exact Or.inl (Outcome.done.inj h).symm
    · obtain ⟨cp, hcp, h2⟩ := (Run.andThen_out_done _ _ _).1 h
      split at h2
      · exact Or.inl (Outcome.done.inj h2).symm
      · rename_i hz
        split at h2
        · exact Or.inl (Outcome.done.inj h2).symm
        · exact Or.inr ⟨cp, by simpa using hz, hcp, fetchAverage_appended _ _ _ _ _ h2⟩

theorem gradeavg_parseModules_out (w : World) :
    (Gradeavg.parseModules w).out =
      match w.get overviewURL with
      | none => .done ([], true)
      | some doc =>
        match (Run.each (Gradeavg.rowStep w doc.rows.length) 0 doc.rows []).out with
        | .done grades => .done (grades, false)
        | .exit => .exit
        | .panic => .panic := by
  simp only [Gradeavg.parseModules, Run.andThen_emit]
  cases w.get overviewURL with
  | none => rfl
  | some doc =>
    simp only [Run.andThen]
    cases (Run.each (Gradeavg.rowStep w doc.rows.length) 0 doc.rows []).out <;> rfl

theorem obs_parseModules_out (w : World) :
    (Obsgradeavg.parseModules w).out =
      match w.get overviewURL with
      | none => .done ([], true)
      | some doc =>
        match (Run.each (Obsgradeavg.rowStep w doc.rows.length) 0 doc.rows []).out with
        | .done grades => .done (grades, false)
        | .exit => .exit
        | .panic => .panic := by
  simp only [Obsgradeavg.parseModules, Run.andThen_emit]
  cases w.get overviewURL with
  | none => rfl
  | some doc =>
    simp only [Run.andThen]
    cases (Run.each (Obsgradeavg.rowStep w doc.rows.length) 0 doc.rows []).out <;> rfl

/-- If `parseModules` returns a list, the list is what the traversal of the
rows of the overview returned, or empty. -/
theorem parseModules_out_cases (step : World → Nat → List module → Nat → Row → Run (List module))
    (pm : World → Run (List module × Bool)) (w : World)
    (hpm : (pm w).out =
      match w.get overviewURL with
      | none => .done ([], true)
      | some doc =>
        match (Run.each (step w doc.rows.length) 0 doc.rows []).out with
        | .done grades => .done (grades, false)
        | .exit => .exit
        | .panic => .panic)
    (ms : List module) (err : Bool) (h : (pm w).out = .done (ms, err)) :
    ms = [] ∨ ∃ doc, w.get overviewURL = some doc ∧
      (Run.each (step w doc.rows.length) 0 doc.rows []).out = .done ms := by
  rw [hpm] at h
  cases hd : w.get overviewURL with
  | none =>
    rw [hd] at h
    simp only [Outcome.done.injEq, Prod.mk.injEq] at h
    exact Or.inl h.1.symm
  | some doc =>
    rw [hd] at h
    simp only at h
    cases he : (Run.each (step w doc.rows.length) 0 doc.rows []).out with
    | done grades =>
      rw [he] at h
      simp only [Outcome.done.injEq, Prod.mk.injEq] at h
      exact Or.inr ⟨doc, rfl, h.1 ▸ he⟩
    | exit => rw [he] at h; cases h
    | panic => rw [he] at h; cases h

/-- C2 (counterexample): a row of `gradeavg.go` with the credit-point text
`-3,0` is retained, with the credit points -3, and so is a row of
`obsgradeavg.go` whose module page has that text. -/
theorem negative_credit_points_are_retained :
    (Gradeavg.parseModules
      (samplePortal [sampleRow "B" "-3,0" "b"] [("b", [some "3 <= 2.0"])] [] 20001)).out
      = .done ([⟨"B".toList, F32.ofInt 2, F32.ofInt (-3)⟩], false) ∧
    (Obsgradeavg.parseModules
      (samplePortal [sampleRow9 "B" "https://obs.fbi.h-da.de/obs/m" "1,3" "b"] [("b", [some "3 <= 2.0"])] [("https://obs.fbi.h-da.de/obs/m", "-3,0")]
        20001)).out
      = .done ([⟨"B".toList, F32.ofInt 2, F32.ofInt (-3)⟩], false) ∧
    F32.ofInt (-3) = .fin true 12582912 (-22) ∧
    F32.toRat (F32.ofInt (-3)) = some (-3) := by
  refine ⟨by decide, by decide, by decide, ?_⟩
  have h : F32.ofInt (-3) = .fin true 12582912 (-22) := by decide
  rw [h]
  norm_num [F32.toRat, F32.num, F32.den, Int.toNat]

/-- C2 (amended): in both programs every record of the list returned by
`parseModules` has credit points different from zero, that is `cp == 0` is
false for it; nothing is said about their sign. -/
theorem retained_credit_points_ne_zero (w : World) (ms : List module) (err : Bool)
    (h : (Gradeavg.parseModules w).out = .done (ms, err) ∨
      (Obsgradeavg.parseModules w).out = .done (ms, err))
    (m : module) (hm : m ∈ ms) : F32.eq m.cp F32.zero = false := by
  rcases h with h | h
  · rcases parseModules_out_cases Gradeavg.rowStep Gradeavg.parseModules w
      (gradeavg_parseModules_out w) ms err h with h0 | ⟨doc, _, he⟩
    · subst h0; cases hm
    · refine Run.each_inv (fun g => ∀ m ∈ g, F32.eq m.cp F32.zero = false) _ doc.rows ?_ 0 [] ms
        (fun m hm => by cases hm) he m hm
      intro b i row b2 _ hb hstep m hm
      rcases gradeavg_rowStep_appended w _ i b b2 row hstep with hg | ⟨hz, hg | ⟨avg, hg, _⟩⟩
      · exact hb m (hg ▸ hm)
      · exact hb m (hg ▸ hm)
      · subst hg
        rcases List.mem_append.1 hm with hm | hm
        · exact hb m hm
        · rw [List.mem_singleton.1 hm]; exact hz
  · rcases parseModules_out_cases Obsgradeavg.rowStep Obsgradeavg.parseModules w
      (obs_parseModules_out w) ms err h with h0 | ⟨doc, _, he⟩
    · subst h0; cases hm
    · refine Run.each_inv (fun g => ∀ m ∈ g, F32.eq m.cp F32.zero = false) _ doc.rows ?_ 0 [] ms
        (fun m hm => by cases hm) he m hm
      intro b i row b2 _ hb hstep m hm
      rcases obs_rowStep_appended w _ i b b2 row hstep with
        hg | ⟨cp, hz, _, hg | ⟨avg, hg, _⟩⟩
      · exact hb m (hg ▸ hm)
      · exact hb m (hg ▸ hm)
      · subst hg
        rcases List.mem_append.1 hm with hm | hm
        · exact hb m hm
        · rw [List.mem_singleton.1 hm]; exact hz

/-- Witness of C2: a portal with one module of 2.5 credit points for
`gradeavg.go`, and one whose module page says 7,5 for `obsgradeavg.go`. -/
theorem retained_credit_points_ne_zero_witness :
    F32.eq (F32.ofFrac 5 2) F32.zero = false ∧ F32.eq (F32.ofFrac 15 2) F32.zero = false :=
  ⟨retained_credit_points_ne_zero
      (samplePortal [sampleRow "A" "2,5" "a"] [("a", [some "3 <= 2.0"])] [] 20001)
      [⟨"A".toList, F32.ofInt 2, F32.ofFrac 5 2⟩] false (Or.inl (by decide))
      ⟨"A".toList, F32.ofInt 2, F32.ofFrac 5 2⟩ (List.mem_singleton.2 rfl),
   retained_credit_points_ne_zero
      (samplePortal [sampleRow9 "A" "https://obs.fbi.h-da.de/obs/m" "1,3" "a"] [("a", [some "3 <= 2.0"])] [("https://obs.fbi.h-da.de/obs/m", "7,5")]
        20001)
      [⟨"A".toList, F32.ofInt 2, F32.ofFrac 15 2⟩] false (Or.inr (by decide))
      ⟨"A".toList, F32.ofInt 2, F32.ofFrac 15 2⟩ (List.mem_singleton.2 rfl)⟩

theorem fetchAverage_of_empty (w : World) (grades : List module) (row : Row) (cp : F32)
    (doc : Page) (hget : w.get (statURL (statIDOf row)) = some doc) (hempty : doc.gradeRows = []) :
    (fetchAverage w grades row cp).out = .done grades := by
  rw [fetchAverage_out, calculateAvgGrade_out, hget]
  simp only [hempty, avgOfPage_nil]
  rfl

theorem gradeavg_rowStep_of_empty (w : World) (n i : Nat) (grades : List module) (row : Row)
    (doc : Page) (hget : w.get (statURL (statIDOf row)) = some doc) (hempty : doc.gradeRows = []) :
    (Gradeavg.rowStep w n grades i row).out = .done grades := by
  unfold Gradeavg.rowStep
  split
  · rfl
  · rename_i hc
    have hlen : row.cells.length = 10 := by
      by_contra hne
      exact hc (Or.inr (Or.inr (Or.inl hne)))
    cases h7 : row.cells.get? 7 with
    | none =>
      rw [List.get?_eq_none] at h7
      omega
    | some c7 =>
      simp only
      split
      · rfl
      · split
        · rfl
        · exact fetchAverage_of_empty w grades row _ doc hget hempty

theorem obs_rowStep_of_empty (w : World) (n i : Nat) (grades g : List module) (row : Row)
    (doc : Page) (hget : w.get (statURL (statIDOf row)) = some doc) (hempty : doc.gradeRows = [])
    (h : (Obsgradeavg.rowStep w n grades i row).out = .done g) : g = grades := by
  rcases obs_rowStep_appended w n i grades g row h with hg | ⟨cp, _, _, hg | ⟨avg, _, havg, hne⟩⟩
  · exact hg
  · exact hg
  · rw [calculateAvgGrade_out, hget] at havg
    simp only [hempty, avgOfPage_nil, Outcome.done.injEq] at havg
    rw [← havg] at hne
    exact absurd hne (by decide)

theorem appended_has_entries (w : World) (row : Row) (cp : F32) (grades g : List module)
    (h : Appended w row cp grades g) :
    g = grades ∨ ∃ avg d, g = grades ++ [⟨row.text 3, avg, cp⟩] ∧
      w.get (statURL (statIDOf row)) = some d ∧ d.gradeRows ≠ [] := by
  rcases h with hg | ⟨avg, hg, havg, hne⟩
  · exact Or.inl hg
  · rw [calculateAvgGrade_out] at havg
    cases hd : w.get (statURL (statIDOf row)) with
    | none => rw [hd] at havg; cases havg
    | some d =>
      rw [hd] at havg
      refine Or.inr ⟨avg, d, hg, rfl, ?_⟩
      intro hempty
      simp only [hempty, avgOfPage_nil, Outcome.done.injEq] at havg
      rw [← havg] at hne
      exact absurd hne (by decide)

theorem each_from_rows_with_entries (w : World)
    (step : List module → Nat → Row → Run (List module)) (rows : List Row)
    (hstep : ∀ grades i row g, (step grades i row).out = .done g →
      g = grades ∨ ∃ cp, Appended w row cp grades g)
    (ms : List module) (h : (Run.each step 0 rows []).out = .done ms) :
    ∀ m ∈ ms, FromRowWithEntries w rows m := by
  refine Run.each_inv (fun g => ∀ m ∈ g, FromRowWithEntries w rows m) step rows ?_ 0 [] ms
    (fun m hm => by cases hm) h
  intro b i row b2 hrow hb hs m hm
  rcases hstep b i row b2 hs with hg | ⟨cp, happ⟩
  · exact hb m (hg ▸ hm)
  · rcases appended_has_entries w row cp b b2 happ with hg | ⟨avg, d, hg, hd, hne⟩
    · exact hb m (hg ▸ hm)
    · subst hg
      rcases List.mem_append.1 hm with hm | hm
      · exact hb m hm
      · rw [List.mem_singleton.1 hm]
        exact ⟨row, hrow, rfl, d, hd, hne⟩

/-- C3: when the statistics page of `statID` has no element `span > span`,
`calculateAvgGrade` returns the sentinel `-1` after its one request, and the
callback of `parseModules` leaves the list as it is for every row with that
identifier (in `obsgradeavg.go` whenever it returns at all); moreover every
record of a list returned by `parseModules` comes from a row whose statistics
page has at least one entry. -/
theorem empty_statistics_page_is_skipped (w : World) (statID : Text) (doc : Page)
    (hget : w.get (statURL statID) = some doc) (hempty : doc.gradeRows = []) :
    calculateAvgGrade w statID = ⟨[.get (statURL statID)], .done (F32.ofInt (-1))⟩ ∧
    (∀ (n i : Nat) (grades : List module) (row : Row), statIDOf row = statID →
      (Gradeavg.rowStep w n grades i row).out = .done grades) ∧
    (∀ (n i : Nat) (grades g : List module) (row : Row), statIDOf row = statID →
      (Obsgradeavg.rowStep w n grades i row).out = .done g → g = grades) ∧
    (∀ (ms : List module) (err : Bool) (overview : Page), w.get overviewURL = some overview →
      (Gradeavg.parseModules w).out = .done (ms, err) ∨
        (Obsgradeavg.parseModules w).out = .done (ms, err) →
      ∀ m ∈ ms, FromRowWithEntries w overview.rows m) := by
  refine ⟨?_, ?_, ?_, ?_⟩
  · rw [calculateAvgGrade_eq w statID doc hget, hempty, avgOfPage_nil]
  · intro n i grades row hrow
    subst hrow
    exact gradeavg_rowStep_of_empty w n i grades row doc hget hempty
  · intro n i grades g row hrow h
    subst hrow
    exact obs_rowStep_of_empty w n i grades g row doc hget hempty h
  · intro ms err overview hov h
    rcases h with h | h
    · rcases parseModules_out_cases Gradeavg.rowStep Gradeavg.parseModules w
        (gradeavg_parseModules_out w) ms err h with h0 | ⟨d, hd, he⟩
      · subst h0; intro m hm; cases hm
      · rw [hov] at hd
        cases hd
        refine each_from_rows_with_entries w _ overview.rows ?_ ms he
        intro grades i row g hs
        rcases gradeavg_rowStep_appended w _ i grades g row hs with hg | ⟨_, happ⟩
        · exact Or.inl hg
        · exact Or.inr ⟨_, happ⟩
    · rcases parseModules_out_cases Obsgradeavg.rowStep Obsgradeavg.parseModules w
        (obs_parseModules_out w) ms err h with h0 | ⟨d, hd, he⟩
      · subst h0; intro m hm; cases hm
      · rw [hov] at hd
        cases hd
        refine each_from_rows_with_entries w _ overview.rows ?_ ms he
        intro grades i row g hs
        rcases obs_rowStep_appended w _ i grades g row hs with hg | ⟨cp, _, _, happ⟩
        · exact Or.inl hg
        · exact Or.inr ⟨cp, happ⟩

/-- Witness of C3: a portal whose only module has a statistics page without
entries; the list returned is empty. -/
theorem empty_statistics_page_is_skipped_witness :
    calculateAvgGrade (samplePortal [sampleRow "E" "2,5" "e"] [("e", [])] [] 20001) "e".toList
      = ⟨[.get (statURL "e".toList)], .done (F32.ofInt (-1))⟩ ∧
    (Gradeavg.rowStep (samplePortal [sampleRow "E" "2,5" "e"] [("e", [])] [] 20001) 3 [] 1
      (sampleRow "E" "2,5" "e")).out = .done [] :=
  have h := empty_statistics_page_is_skipped
    (samplePortal [sampleRow "E" "2,5" "e"] [("e", [])] [] 20001) "e".toList
    ⟨none, [], [], []⟩ (by decide) rfl
  ⟨h.1, h.2.1 3 1 [] (sampleRow "E" "2,5" "e") (by decide)⟩

/-! ## Credit points -/

theorem Strconv.parseFloat32_invalid (s : Text) (h : (Strconv.parseFloat32 s).2 = some .invalid) :
    (Strconv.parseFloat32 s).1 = F32.zero := by
  unfold Strconv.parseFloat32 at h ⊢
  split at h
  · split at h
    · cases h
    · simp_all
  · split at h
    · rfl
    · cases h
    · cases h

theorem Strconv.isDigit_toNat (c : Char) (h : Strconv.isDigit c = true) :
    48 ≤ c.toNat ∧ c.toNat ≤ 57 := by
  simpa [Strconv.isDigit] using h

theorem Strconv.isDigit_ne (c d : Char) (h : Strconv.isDigit c = true)
    (hd : d.toNat < 48 ∨ 57 < d.toNat) : c ≠ d := by
  intro hcd
  have := Strconv.isDigit_toNat c h
  subst hcd
  omega

theorem Strings.replace1_comma (a b : Text) (ha : ∀ c ∈ a, Strconv.isDigit c = true) :
    Strings.replace1 (a ++ ',' :: b) ",".toList ".".toList = a ++ '.' :: b := by
  have hne : ",".toList ≠ [] := by decide
  simp only [Strings.replace1, hne, if_false]
  induction a with
  | nil =>
    show Strings.replaceFirst [','] ['.'] (',' :: b) = '.' :: b
    simp [Strings.replaceFirst, List.isPrefixOf]
  | cons c cs ih =>
    have hc : c ≠ ',' := Strconv.isDigit_ne c ',' (ha c (List.mem_cons_self _ _)) (by decide)
    have ih2 := ih (fun x hx => ha x (List.mem_cons_of_mem _ hx))
    show Strings.replaceFirst [','] ['.'] (c :: (cs ++ ',' :: b)) = c :: (cs ++ '.' :: b)
    have ih3 : Strings.replaceFirst [','] ['.'] (cs ++ ',' :: b) = cs ++ '.' :: b := ih2
    simp [Strings.replaceFirst, List.isPrefixOf, hc, Ne.symm hc, ih3]

theorem Strconv.readMantissa_digits (ds rest : Text) (hds : ∀ c ∈ ds, Strconv.isDigit c = true) :
    ∀ acc, Strconv.readMantissa 10 (ds ++ rest) acc
      = Strconv.readMantissa 10 rest (pushDigits acc ds) := by
  induction ds with
  | nil => intro acc; rfl
  | cons c cs ih =>
    intro acc
    have hc := hds c (List.mem_cons_self _ _)
    have h1 : c ≠ '_' := Strconv.isDigit_ne c '_' hc (by decide)
    have h2 : c ≠ '.' := Strconv.isDigit_ne c '.' hc (by decide)
    show Strconv.readMantissa 10 (c :: (cs ++ rest)) acc = _
    simp only [Strconv.readMantissa, h1, h2, hc, if_false, if_true]
    rw [ih (fun x hx => hds x (List.mem_cons_of_mem _ hx))]
    rfl

theorem pushDigits_nodot (ds : Text) : ∀ (n f : Nat) (sd : Bool), ds ≠ [] →
    pushDigits ⟨n, f, false, sd⟩ ds
      = ⟨ds.foldl (fun n c => n * 10 + Strconv.digitVal c) n, f, false, true⟩ := by
  induction ds with
  | nil => intro n f sd h; exact absurd rfl h
  | cons c cs ih =>
    intro n f sd _
    cases cs with
    | nil => rfl
    | cons c2 cs2 =>
      have := ih (n * 10 + Strconv.digitVal c) f true (by simp)
      simpa [pushDigits, Strconv.Mantissa.push] using this

theorem pushDigits_dot (ds : Text) : ∀ (n f : Nat),
    pushDigits ⟨n, f, true, true⟩ ds
      = ⟨ds.foldl (fun n c => n * 10 + Strconv.digitVal c) n, f + ds.length, true, true⟩ := by
  induction ds with
  | nil => intro n f; rfl
  | cons c cs ih =>
    intro n f
    have := ih (n * 10 + Strconv.digitVal c) (f + 1)
    simp only [pushDigits, List.foldl_cons, Strconv.Mantissa.push, if_true] at this ⊢
    rw [this]
    simp only [List.length_cons, Strconv.Mantissa.mk.injEq, and_true, true_and]
    omega

theorem Strconv.readMantissa_decimal (a b : Text) (ha : a ≠ [])
    (hda : ∀ c ∈ a, Strconv.isDigit c = true) (hdb : ∀ c ∈ b, Strconv.isDigit c = true) :
    Strconv.readMantissa 10 (a ++ '.' :: b) ⟨0, 0, false, false⟩
      = (⟨decimalValue (a ++ b), b.length, true, true⟩, []) := by
  rw [Strconv.readMantissa_digits a _ hda, pushDigits_nodot a 0 0 false ha]
  have hdot : Strconv.readMantissa 10 ('.' :: b)
      ⟨a.foldl (fun n c => n * 10 + Strconv.digitVal c) 0, 0, false, true⟩
      = Strconv.readMantissa 10 b
        ⟨a.foldl (fun n c => n * 10 + Strconv.digitVal c) 0, 0, true, true⟩ := by
    simp [Strconv.readMantissa]
  rw [hdot]
  have hb := Strconv.readMantissa_digits b [] hdb
    ⟨a.foldl (fun n c => n * 10 + Strconv.digitVal c) 0, 0, true, true⟩
  rw [List.append_nil] at hb
  rw [hb, pushDigits_dot]
  simp [Strconv.readMantissa, decimalValue, List.foldl_append]

theorem Strconv.lower_ne_x (c : Char) (h : Strconv.isDigit c = true ∨ c = '.') :
    Strconv.lower c ≠ 120 := by
  rcases h with h | h
  · have := Strconv.isDigit_toNat c h
    unfold Strconv.lower
    have h2 : c.toNat = 48 ∨ c.toNat = 49 ∨ c.toNat = 50 ∨ c.toNat = 51 ∨ c.toNat = 52 ∨
        c.toNat = 53 ∨ c.toNat = 54 ∨ c.toNat = 55 ∨ c.toNat = 56 ∨ c.toNat = 57 := by omega
    rcases h2 with h2 | h2 | h2 | h2 | h2 | h2 | h2 | h2 | h2 | h2 <;> rw [h2] <;> decide
  · subst h
    decide

theorem Strconv.hasHexPrefix_decimal (s : Text)
    (hall : ∀ c ∈ s, Strconv.isDigit c = true ∨ c = '.') : Strconv.hasHexPrefix s = false := by
  match s with
  | [] => rfl
  | [_] => rfl
  | [_, _] => rfl
  | c0 :: c1 :: c2 :: r =>
    have := Strconv.lower_ne_x c1 (hall c1 (by simp))
    simp [Strconv.hasHexPrefix, this]

theorem Strconv.readFloat_decimal (a b : Text) (ha : a ≠ []) (hb : b ≠ [])
    (hda : ∀ c ∈ a, Strconv.isDigit c = true) (hdb : ∀ c ∈ b, Strconv.isDigit c = true) :
    Strconv.readFloat (a ++ '.' :: b)
      = some (F32.roundFrac false (decimalValue (a ++ b)) (10 ^ b.length)) := by
  have hm := Strconv.readMantissa_decimal a b ha hda hdb
  have hall : ∀ c ∈ a ++ '.' :: b, Strconv.isDigit c = true ∨ c = '.' := by
    intro c hc
    rcases List.mem_append.1 hc with h | h
    · exact Or.inl (hda c h)
    · rcases List.mem_cons.1 h with h | h
      · exact Or.inr h
      · exact Or.inl (hdb c h)
  have hus : (a ++ '.' :: b).contains '_' = false := by
    rw [List.contains_eq_any_beq, List.any_eq_false]
    intro c hc
    rcases hall c hc with h | h
    · have := Strconv.isDigit_ne c '_' h (by decide)
      simpa using Ne.symm this
    · subst h; decide
  have hhex := Strconv.hasHexPrefix_decimal (a ++ '.' :: b) hall
  have hneg : ¬ (0 : Int) ≤ 0 - ((b.length : Nat) : Int) := by
    have : 0 < b.length := List.length_pos.2 hb
    omega
  have hnat : (-(0 - ((b.length : Nat) : Int))).toNat = b.length := by simp
  have hnum : Strconv.readNumber (a ++ '.' :: b) false false (a ++ '.' :: b)
      = some (F32.roundFrac false (decimalValue (a ++ b)) (10 ^ b.length)) := by
    simp only [Strconv.readNumber, Bool.false_eq_true, if_false, hm, Bool.not_true,
      Strconv.readExponent, ne_eq, not_true_eq_false, hus, Bool.false_and,
      Strconv.literalValue, hneg, hnat]
  cases a with
  | nil => exact absurd rfl ha
  | cons c cs =>
    have hc := hda c (List.mem_cons_self _ _)
    have h1 : c ≠ '-' := Strconv.isDigit_ne c '-' hc (by decide)
    have h2 : c ≠ '+' := Strconv.isDigit_ne c '+' hc (by decide)
    rw [List.cons_append] at hhex hnum ⊢
    simp only [Strconv.readFloat, h1, h2, or_self, if_false, hhex, decide_False,
      Bool.false_eq_true]
    exact hnum

theorem F32.roundFrac_inf (neg n2 : Bool) (p d : Nat) (h : F32.roundFrac neg p d = .inf n2) :
    n2 = neg := by
  have key : ∀ (s2 : Int) (m : Nat),
      (if 104 < s2 then F32.inf neg else F32.fin neg m s2) = .inf n2 → n2 = neg := by
    intro s2 m h2
    by_cases hs : 104 < s2
    · rw [if_pos hs] at h2
      exact (F32.inf.inj h2).symm
    · rw [if_neg hs] at h2
      cases h2
  unfold F32.roundFrac at h
  by_cases hp : p = 0
  · rw [if_pos hp] at h
    cases h
  · rw [if_neg hp] at h
    exact key _ _ h

theorem Strconv.special_digit (c : Char) (cs : Text) (hc : Strconv.isDigit c = true) :
    Strconv.special (c :: cs) = none := by
  have h1 : c ≠ '-' := Strconv.isDigit_ne c '-' hc (by decide)
  have h2 : c ≠ '+' := Strconv.isDigit_ne c '+' hc (by decide)
  have h3 : c ≠ 'i' := Strconv.isDigit_ne c 'i' hc (by decide)
  have h4 : c ≠ 'I' := Strconv.isDigit_ne c 'I' hc (by decide)
  have h5 : c ≠ 'n' := Strconv.isDigit_ne c 'n' hc (by decide)
  have h6 : c ≠ 'N' := Strconv.isDigit_ne c 'N' hc (by decide)
  simp [Strconv.special, h1, h2, h3, h4, h5, h6]

theorem Strconv.parseFloat32_decimal (a b : Text) (ha : a ≠ []) (hb : b ≠ [])
    (hda : ∀ c ∈ a, Strconv.isDigit c = true) (hdb : ∀ c ∈ b, Strconv.isDigit c = true) :
    (Strconv.parseFloat32 (a ++ '.' :: b)).1
      = F32.roundFrac false (decimalValue (a ++ b)) (10 ^ b.length) ∧
    ((Strconv.parseFloat32 (a ++ '.' :: b)).2 = none ↔
      F32.roundFrac false (decimalValue (a ++ b)) (10 ^ b.length) ≠ .inf false) := by
  have hr := Strconv.readFloat_decimal a b ha hb hda hdb
  have hs : Strconv.special (a ++ '.' :: b) = none := by
    cases a with
    | nil => exact absurd rfl ha
    | cons c cs => exact Strconv.special_digit c _ (hda c (List.mem_cons_self _ _))
  unfold Strconv.parseFloat32
  rw [hs, hr]
  simp only
  cases hv : F32.roundFrac false (decimalValue (a ++ b)) (10 ^ b.length) with
  | nan => simp
  | inf neg =>
    have : neg = false := F32.roundFrac_inf _ _ _ _ hv
    subst this
    simp
  | fin neg m e => simp

theorem obs_getCPForModule_out (w : World) (link : Text) (doc : Page)
    (hget : w.get link = some doc) :
    (Obsgradeavg.getCPForModule w link).out =
      if (Strconv.parseFloat32 (Strings.replace1 doc.cpText ",".toList ".".toList)).2 = none
      then .done (Strconv.parseFloat32 (Strings.replace1 doc.cpText ",".toList ".".toList)).1
      else .exit := by
  simp only [Obsgradeavg.getCPForModule, Run.andThen_emit, hget]
  cases h : (Strconv.parseFloat32 (Strings.replace1 doc.cpText ",".toList ".".toList)).2 with
  | none => simp [exitOnError, Run.andThen, Run.ret]
  | some e => simp [exitOnError, Run.andThen, Run.exit]

/-- C9 (counterexample): the token `0,1` parses to the `float32`
`13421773 / 2^27`, which is not the decimal number 0.1, and a token of forty
digits before the comma parses to `+Inf`. -/
theorem decimal_comma_token_is_rounded :
    Gradeavg.cpOfRow (sampleRow "A" "0,1" "a") = .fin false 13421773 (-27) ∧
    F32.toRat (.fin false 13421773 (-27)) = some (13421773 / 134217728) ∧
    (13421773 / 134217728 : ℚ) ≠ 1 / 10 ∧
    Gradeavg.cpOfRow (sampleRow "A" "1000000000000000000000000000000000000000,0" "a")
      = .inf false := by
  refine ⟨by decide, ?_, by norm_num, by decide⟩
  norm_num [F32.toRat, F32.num, F32.den, Int.toNat]

/-- C9 (amended): for a token `<digits>,<digits>` the credit points are the
`float32` nearest to the decimal number `<digits>.<digits>` (ties to even,
`+Inf` beyond the range of `float32`): so for the variable `cp` of
`gradeavg.go`, and so for the value returned by `getCPForModule` of
`obsgradeavg.go` unless it is `+Inf`, where the process is terminated. The
token `4,5` parses to exactly 4.5. -/
theorem decimal_comma_token_parses_to_nearest (a b : Text) (ha : a ≠ []) (hb : b ≠ [])
    (hda : ∀ c ∈ a, Strconv.isDigit c = true) (hdb : ∀ c ∈ b, Strconv.isDigit c = true) :
    (∀ row : Row, row.text 8 = a ++ ',' :: b →
      Gradeavg.cpOfRow row = F32.roundFrac false (decimalValue (a ++ b)) (10 ^ b.length)) ∧
    (∀ (w : World) (link : Text) (doc : Page), w.get link = some doc →
      doc.cpText = a ++ ',' :: b →
      (Obsgradeavg.getCPForModule w link).out =
        if F32.roundFrac false (decimalValue (a ++ b)) (10 ^ b.length) = .inf false then .exit
        else .done (F32.roundFrac false (decimalValue (a ++ b)) (10 ^ b.length))) ∧
    Gradeavg.cpOfRow (sampleRow "A" "4,5" "a") = F32.ofFrac 9 2 ∧
    F32.toRat (F32.ofFrac 9 2) = some (9 / 2) := by
  have hp := Strconv.parseFloat32_decimal a b ha hb hda hdb
  refine ⟨?_, ?_, by decide, ?_⟩
  · intro row hrow
    rw [Gradeavg.cpOfRow, hrow, Strings.replace1_comma a b hda]
    exact hp.1
  · intro w link doc hget hdoc
    rw [obs_getCPForModule_out w link doc hget, hdoc, Strings.replace1_comma a b hda,
      hp.1]
    by_cases hinf : F32.roundFrac false (decimalValue (a ++ b)) (10 ^ b.length) = .inf false
    · rw [if_neg (fun h => (hp.2.1 h) hinf), if_pos hinf]
    · rw [if_pos (hp.2.2 hinf), if_neg hinf]
  · have h : F32.ofFrac 9 2 = .fin false 9437184 (-21) := by decide
    rw [h]
    norm_num [F32.toRat, F32.num, F32.den, Int.toNat]

/-- Witness of C9: the token `4,5`. -/
theorem decimal_comma_token_parses_to_nearest_witness :
    Gradeavg.cpOfRow (sampleRow "A" "4,5" "a") = F32.roundFrac false 45 10 :=
  (decimal_comma_token_parses_to_nearest "4".toList "5".toList (by decide) (by decide)
    (by decide) (by decide)).1 (sampleRow "A" "4,5" "a") (by decide)

/-- C8 (counterexample): in `obsgradeavg.go` a module page whose credit-point
text is `n/a` terminates the process, and in `gradeavg.go` a row whose
credit-point text is `1e40` is retained, with the credit points `+Inf`. -/
theorem unparsed_credit_points_exit_or_stay :
    (Obsgradeavg.getCPForModule
      (samplePortal [sampleRow9 "N" "https://obs.fbi.h-da.de/obs/m" "1,3" "n"] [("n", [some "3 <= 2.0"])] [("https://obs.fbi.h-da.de/obs/m", "n/a")]
        20001) "https://obs.fbi.h-da.de/obs/m".toList).out = .exit ∧
    (Obsgradeavg.parseModules
      (samplePortal [sampleRow9 "N" "https://obs.fbi.h-da.de/obs/m" "1,3" "n"] [("n", [some "3 <= 2.0"])] [("https://obs.fbi.h-da.de/obs/m", "n/a")]
        20001)).out = .exit ∧
    (Gradeavg.parseModules
      (samplePortal [sampleRow "D" "1e40" "d"] [("d", [some "3 <= 2.0"])] [] 20001)).out
      = .done ([⟨"D".toList, F32.ofInt 2, .inf false⟩], false) := by
  decide

theorem gradeavg_rowStep_of_zero (w : World) (n i : Nat) (grades : List module) (row : Row)
    (h : F32.eq (Gradeavg.cpOfRow row) F32.zero = true) :
    Gradeavg.rowStep w n grades i row = Run.ret grades := by
  unfold Gradeavg.rowStep
  split
  · rfl
  · rename_i hc
    have hlen : row.cells.length = 10 := by
      by_contra hne
      exact hc (Or.inr (Or.inr (Or.inl hne)))
    cases h7 : row.cells.get? 7 with
    | none =>
      rw [List.get?_eq_none] at h7
      omega
    | some c7 =>
      simp only [h, if_true]
      split <;> rfl

theorem obs_rowStep_of_cp (w : World) (n i : Nat) (grades : List module) (row : Row) :
    ((Obsgradeavg.getCPForModule w (hrefOf (row.childrenOf 4))).out = .exit →
      (Obsgradeavg.rowStep w n grades i row).out = .done grades ∨
      (Obsgradeavg.rowStep w n grades i row).out = .exit) ∧
    (∀ cp, (Obsgradeavg.getCPForModule w (hrefOf (row.childrenOf 4))).out = .done cp →
      F32.eq cp F32.zero = true → (Obsgradeavg.rowStep w n grades i row).out = .done grades) := by
  constructor
  · intro h
    unfold Obsgradeavg.rowStep
    split
    · exact Or.inl rfl
    · simp only
      split
      · exact Or.inl rfl
      · right
        unfold Run.andThen
        rw [h]
  · intro cp h hz
    unfold Obsgradeavg.rowStep
    split
    · rfl
    · simp only
      split
      · rfl
      · rw [Run.andThen_out_of_done _ _ cp h, if_pos hz]
        rfl

/-- C8 (amended): in `gradeavg.go` a row whose credit-point text, after the
comma is replaced, is not a well-formed number or parses to zero is skipped at
once: the callback returns with the list unchanged and without a request. In
`obsgradeavg.go`, `getCPForModule` returns the parsed value when the text of
the module page parses without error and terminates the process when it does
not; a row for which it returns zero is skipped, and a row for which it
terminates the process is either skipped before the call or ends the run. -/
theorem zero_or_malformed_credit_points (w : World) (n i : Nat) (grades : List module)
    (row : Row) :
    ((Strconv.parseFloat32 (Strings.replace1 (row.text 8) ",".toList ".".toList)).2
        = some .invalid ∨ F32.eq (Gradeavg.cpOfRow row) F32.zero = true →
      Gradeavg.rowStep w n grades i row = Run.ret grades) ∧
    (∀ (link : Text) (doc : Page), w.get link = some doc →
      (Obsgradeavg.getCPForModule w link).out =
        if (Strconv.parseFloat32 (Strings.replace1 doc.cpText ",".toList ".".toList)).2 = none
        then .done (Strconv.parseFloat32 (Strings.replace1 doc.cpText ",".toList ".".toList)).1
        else .exit) ∧
    ((Obsgradeavg.getCPForModule w (hrefOf (row.childrenOf 4))).out = .exit →
      (Obsgradeavg.rowStep w n grades i row).out = .done grades ∨
      (Obsgradeavg.rowStep w n grades i row).out = .exit) ∧
    (∀ cp, (Obsgradeavg.getCPForModule w (hrefOf (row.childrenOf 4))).out = .done cp →
      F32.eq cp F32.zero = true → (Obsgradeavg.rowStep w n grades i row).out = .done grades) := by
  refine ⟨?_, fun link doc hget => obs_getCPForModule_out w link doc hget,
    (obs_rowStep_of_cp w n i grades row).1, (obs_rowStep_of_cp w n i grades row).2⟩
  intro h
  apply gradeavg_rowStep_of_zero
  rcases h with h | h
  · rw [Gradeavg.cpOfRow, Strconv.parseFloat32_invalid _ h]
    decide
  · exact h

/-- Witness of C8: a row of `gradeavg.go` with the credit-point text `n/a` is
skipped, and a row of `obsgradeavg.go` whose module page says `0,0` is skipped. -/
theorem zero_or_malformed_credit_points_witness :
    Gradeavg.rowStep (samplePortal [sampleRow "N" "n/a" "n"] [("n", [some "3 <= 2.0"])] [] 20001)
      3 [] 1 (sampleRow "N" "n/a" "n") = Run.ret [] ∧
    (Obsgradeavg.rowStep
      (samplePortal [sampleRow9 "Z" "https://obs.fbi.h-da.de/obs/m" "1,3" "z"] [("z", [some "3 <= 2.0"])] [("https://obs.fbi.h-da.de/obs/m", "0,0")] 20001)
      3 [] 1 (sampleRow9 "Z" "https://obs.fbi.h-da.de/obs/m" "1,3" "z")).out = .done [] :=
  ⟨(zero_or_malformed_credit_points
      (samplePortal [sampleRow "N" "n/a" "n"] [("n", [some "3 <= 2.0"])] [] 20001) 3 1 []
      (sampleRow "N" "n/a" "n")).1 (Or.inl (by decide)),
   (zero_or_malformed_credit_points
      (samplePortal [sampleRow9 "Z" "https://obs.fbi.h-da.de/obs/m" "1,3" "z"] [("z", [some "3 <= 2.0"])] [("https://obs.fbi.h-da.de/obs/m", "0,0")] 20001)
      3 1 [] (sampleRow9 "Z" "https://obs.fbi.h-da.de/obs/m" "1,3" "z")).2.2.2 F32.zero (by decide) (by decide)⟩

/-! ## Login and the total -/

theorem login_eq (w : World) (username password : Text) (doc : Page) (len : Nat)
    (hget : w.get obsURL = some doc)
    (hpost : w.post loginURL (loginForm username password (doc.loginTan.getD [])) = some len) :
    login w username password =
      ⟨[.get obsURL, .post loginURL (loginForm username password (doc.loginTan.getD []))],
        .done (decide (20000 < len))⟩ := by
  simp only [login, Run.andThen_emit, hget, hpost]
  rfl

/-- C10: when the root page is served and the form post is answered with a
body of `len` bytes, `login` returns true exactly when `len > 20000`; and when
`len ≤ 20000`, `main` prints `failed` and returns after the two requests of
`login`, whatever `parseModules` is: it is not called, and neither the overview
nor a statistics page is requested. -/
theorem login_threshold (w : World) (username password : Text) (doc : Page) (len : Nat)
    (hget : w.get obsURL = some doc)
    (hpost : w.post loginURL (loginForm username password (doc.loginTan.getD [])) = some len) :
    (login w username password).out = .done (decide (20000 < len)) ∧
    (len ≤ 20000 →
      (∀ pm : World → Run (List module × Bool), mainWith pm w username password =
        failedLogin username password (doc.loginTan.getD [])) ∧
      Gradeavg.main w username password = failedLogin username password (doc.loginTan.getD []) ∧
      Obsgradeavg.main w username password
        = failedLogin username password (doc.loginTan.getD []) ∧
      (∀ url, Event.get url ∈ (Gradeavg.main w username password).log ∨
        Event.get url ∈ (Obsgradeavg.main w username password).log → url = obsURL)) := by
  have hl := login_eq w username password doc len hget hpost
  have hmain : len ≤ 20000 → ∀ pm : World → Run (List module × Bool),
      mainWith pm w username password = failedLogin username password (doc.loginTan.getD []) := by
    intro hlen pm
    have hd : decide (20000 < len) = false := by simp; omega
    simp only [mainWith, Run.andThen_emit, hl, hd]
    rfl
  refine ⟨by rw [hl], fun hlen => ⟨hmain hlen, hmain hlen _, hmain hlen _, ?_⟩⟩
  intro url hurl
  have hm : Gradeavg.main w username password
      = failedLogin username password (doc.loginTan.getD []) := hmain hlen _
  have hm2 : Obsgradeavg.main w username password
      = failedLogin username password (doc.loginTan.getD []) := hmain hlen _
  rw [hm, hm2, or_self] at hurl
  simp only [failedLogin, List.mem_cons, List.mem_nil_iff, or_false, Event.get.injEq] at hurl
  rcases hurl with h | h | h | h
  · cases h
  · exact h
  · cases h
  · cases h

/-- Witness of C10: a reply of exactly 20000 bytes is a failed login. -/
theorem login_threshold_witness :
    (login (samplePortal [sampleRow "A" "5,0" "a"] [("a", [some "3 <= 2.0"])] [] 20000)
      "user".toList "secret".toList).out = .done false ∧
    Gradeavg.main (samplePortal [sampleRow "A" "5,0" "a"] [("a", [some "3 <= 2.0"])] [] 20000)
      "user".toList "secret".toList = failedLogin "user".toList "secret".toList "tan".toList :=
  have h := login_threshold
    (samplePortal [sampleRow "A" "5,0" "a"] [("a", [some "3 <= 2.0"])] [] 20000)
    "user".toList "secret".toList ⟨some "tan".toList, [], [], []⟩ 20000 (by decide) rfl
  ⟨h.1, (h.2 (by decide)).2.1⟩

theorem aggregate_foldl (modules : List module) (c g : F32) :
    modules.foldl (fun acc m => (F32.add acc.1 m.cp, F32.add acc.2 (F32.mul m.cp m.avg))) (c, g)
      = ((modules.map fun m => m.cp).foldl F32.add c,
         (modules.map fun m => F32.mul m.cp m.avg).foldl F32.add g) := by
  induction modules generalizing c g with
  | nil => rfl
  | cons m ms ih => simp only [List.foldl_cons, List.map_cons, ih]

theorem aggregate_eq (modules : List module) :
    aggregate modules = (F32.sum (modules.map fun m => m.cp),
      F32.sum (modules.map fun m => F32.mul m.cp m.avg)) :=
  aggregate_foldl modules F32.zero F32.zero

/-- C5 (counterexample): for the records (cp 5, avg 2.3) and (cp 10, avg 1.7)
the total average of `main` is the `float32` nearest to 1.9, not the one
nearest to 29/15, and the line printed shows 1.90, not 1.93. -/
theorem two_modules_average_is_not_29_15 :
    totalAverage twoModules = F32.ofFrac 19 10 ∧
    totalAverage twoModules ≠ F32.ofFrac 29 15 ∧
    Fmt.fixed 2 (F32.ofFrac 29 15) = "1.93".toList ∧
    Fmt.fixed 2 (totalAverage twoModules) ≠ "1.93".toList := by
  decide

/-- C5 (amended): for every list of records the total average of `main` is the
`float32` quotient of the `float32` sums of `cp * avg` and of `cp`, accumulated
in list order, and the credit total is that sum of `cp`; for the two records of
the example the average is the `float32` nearest to 28.5 / 15 = 1.9 and `main`
prints 1.90 at 15.0 cp. -/
theorem total_average_is_weighted (modules : List module) :
    totalAverage modules = weightedAverage modules ∧
    (aggregate modules).1 = F32.sum (modules.map fun m => m.cp) ∧
    (aggregate twoModules).2 = F32.ofFrac 57 2 ∧
    (aggregate twoModules).1 = F32.ofInt 15 ∧
    totalAverage twoModules = F32.ofFrac 19 10 ∧
    summary twoModules = "The total average is 1.90 at currently 15.0 cp.\n".toList := by
  refine ⟨?_, ?_, by decide, by decide, by decide, by decide⟩
  · simp only [totalAverage, weightedAverage, aggregate_eq]
  · simp only [aggregate_eq]

/-- C6 (counterexample): two orders of the same three records, with the
weights `2^24`, 1 and 1, give different weighted averages, because
`2^24 + 1` rounds to `2^24` in `float32`. -/
theorem reordering_changes_average :
    List.Perm bigFirst bigLast ∧
    F32.add (F32.ofInt 16777216) (F32.ofInt 1) = F32.ofInt 16777216 ∧
    totalAverage bigFirst = F32.ofFrac 4194305 4194304 ∧
    totalAverage bigLast = F32.ofFrac 8388609 8388608 ∧
    totalAverage bigFirst ≠ totalAverage bigLast := by
  refine ⟨?_, by decide, by decide, by decide, by decide⟩
  decide

/-! ### Exact arithmetic on a dyadic grid -/

namespace F32


theorem bitsFuel_zero (fuel : Nat) : bitsFuel fuel 0 = 0 := by
  cases fuel <;> simp [bitsFuel]

theorem bitsFuel_spec : ∀ (fuel n : Nat), n ≤ fuel → 0 < n →
    2 ^ (bitsFuel fuel n - 1) ≤ n ∧ n < 2 ^ bitsFuel fuel n ∧ 0 < bitsFuel fuel n := by
  intro fuel
  induction fuel with
  | zero => intro n h hn; omega
  | succ f ih =>
    intro n h hn
    have hn0 : n ≠ 0 := by omega
    simp only [bitsFuel, hn0, if_false]
    by_cases h2 : n / 2 = 0
    · have h1 : n = 1 := by omega
      subst h1
      simp [bitsFuel_zero]
    · obtain ⟨ha, hb, hc⟩ := ih (n / 2) (by omega) (by omega)
      refine ⟨?_, ?_, by omega⟩
      · have : bitsFuel f (n / 2) + 1 - 1 = (bitsFuel f (n / 2) - 1) + 1 := by omega
        rw [this, pow_succ]
        omega
      · rw [pow_succ]
        omega

theorem bits_spec (n : Nat) (hn : 0 < n) :
    2 ^ (bits n - 1) ≤ n ∧ n < 2 ^ bits n ∧ 0 < bits n :=
  bitsFuel_spec n n (le_refl n) hn

theorem ltPow2_iff (p d : Nat) (k : Int) :
    ltPow2 p d k = true ↔ (p : ℚ) < (d : ℚ) * (2 : ℚ) ^ k := by
  unfold ltPow2
  by_cases hk : 0 ≤ k
  · obtain ⟨n, rfl⟩ := Int.eq_ofNat_of_zero_le hk
    simp only [hk, if_true, Int.toNat_ofNat, decide_eq_true_eq, zpow_natCast]
    exact_mod_cast Iff.rfl
  · have hk2 : k < 0 := by omega
    obtain ⟨n, hn⟩ := Int.exists_eq_neg_ofNat (le_of_lt hk2)
    subst hn
    simp only [hk, if_false, neg_neg, Int.toNat_ofNat, decide_eq_true_eq, zpow_neg,
      zpow_natCast]
    have hpos : (0 : ℚ) < (2 : ℚ) ^ n := by positivity
    rw [← div_eq_mul_inv, lt_div_iff₀ hpos]
    exact_mod_cast Iff.rfl

theorem floorLog2_spec (p d : Nat) (hp : 0 < p) (hd : 0 < d) :
    (d : ℚ) * (2 : ℚ) ^ floorLog2 p d ≤ p ∧ (p : ℚ) < (d : ℚ) * (2 : ℚ) ^ (floorLog2 p d + 1) := by
  obtain ⟨pa, pb, pc⟩ := bits_spec p hp
  obtain ⟨da, db, dc⟩ := bits_spec d hd
  have hpa : ((2 : ℚ) ^ (bits p - 1)) ≤ p := by exact_mod_cast pa
  have hpb : (p : ℚ) < (2 : ℚ) ^ bits p := by exact_mod_cast pb
  have hda : ((2 : ℚ) ^ (bits d - 1)) ≤ d := by exact_mod_cast da
  have hdb : (d : ℚ) < (2 : ℚ) ^ bits d := by exact_mod_cast db
  have hdq : (0 : ℚ) < d := by exact_mod_cast hd
  have h2 : (0 : ℚ) < 2 := by norm_num
  -- upper bound: p < d * 2^(k0+1)
  have hup : (p : ℚ) < (d : ℚ) * (2 : ℚ) ^ ((bits p : Int) - (bits d : Int) + 1) := by
    have e1 : ((bits p : Int) - (bits d : Int) + 1) = (bits p : Int) - ((bits d - 1 : Nat) : Int) := by
      omega
    rw [e1, zpow_sub₀ (by norm_num : (2 : ℚ) ≠ 0), zpow_natCast, zpow_natCast]
    have hpos : (0 : ℚ) < (2 : ℚ) ^ (bits d - 1) := by positivity
    rw [mul_div_assoc', lt_div_iff₀ hpos]
    calc (p : ℚ) * 2 ^ (bits d - 1) < 2 ^ bits p * 2 ^ (bits d - 1) := by
          apply mul_lt_mul_of_pos_right hpb hpos
      _ ≤ 2 ^ bits p * d := by
          apply mul_le_mul_of_nonneg_left hda (by positivity)
      _ = d * 2 ^ bits p := by ring
  -- lower bound: d * 2^(k0-1) ≤ p
  have hlo : (d : ℚ) * (2 : ℚ) ^ ((bits p : Int) - (bits d : Int) - 1) ≤ p := by
    have e1 : ((bits p : Int) - (bits d : Int) - 1) = ((bits p - 1 : Nat) : Int) - (bits d : Int) := by
      omega
    rw [e1, zpow_sub₀ (by norm_num : (2 : ℚ) ≠ 0), zpow_natCast, zpow_natCast]
    have hpos : (0 : ℚ) < (2 : ℚ) ^ bits d := by positivity
    rw [mul_div_assoc', div_le_iff₀ hpos]
    calc (d : ℚ) * 2 ^ (bits p - 1) ≤ 2 ^ bits d * 2 ^ (bits p - 1) := by
          apply mul_le_mul_of_nonneg_right (le_of_lt hdb) (by positivity)
      _ ≤ 2 ^ bits d * p := by
          apply mul_le_mul_of_nonneg_left hpa (by positivity)
      _ = p * 2 ^ bits d := by ring
  unfold floorLog2
  simp only
  by_cases hlt : ltPow2 p d ((bits p : Int) - (bits d : Int)) = true
  · rw [if_pos hlt]
    refine ⟨hlo, ?_⟩
    have := (ltPow2_iff p d _).1 hlt
    simpa using this
  · rw [if_neg hlt]
    refine ⟨?_, hup⟩
    have := mt (ltPow2_iff p d _).2 hlt
    exact not_lt.1 this

theorem floorLog2_eq_of (p d : Nat) (k : Int) (hp : 0 < p) (hd : 0 < d)
    (h1 : (d : ℚ) * (2 : ℚ) ^ k ≤ p) (h2 : (p : ℚ) < (d : ℚ) * (2 : ℚ) ^ (k + 1)) :
    floorLog2 p d = k := by
  obtain ⟨s1, s2⟩ := floorLog2_spec p d hp hd
  have hdq : (0 : ℚ) < d := by exact_mod_cast hd
  have a : (2 : ℚ) ^ k < (2 : ℚ) ^ (floorLog2 p d + 1) := by
    have := lt_of_le_of_lt h1 s2
    exact lt_of_mul_lt_mul_left this (le_of_lt hdq)
  have b : (2 : ℚ) ^ floorLog2 p d < (2 : ℚ) ^ (k + 1) := by
    have := lt_of_le_of_lt s1 h2
    exact lt_of_mul_lt_mul_left this (le_of_lt hdq)
  have a2 := (zpow_lt_zpow_iff_right₀ (by norm_num : (1 : ℚ) < 2)).1 a
  have b2 := (zpow_lt_zpow_iff_right₀ (by norm_num : (1 : ℚ) < 2)).1 b
  omega

theorem floorLog2_scale (c p d : Nat) (hc : 0 < c) (hp : 0 < p) (hd : 0 < d) :
    floorLog2 (c * p) (c * d) = floorLog2 p d := by
  obtain ⟨s1, s2⟩ := floorLog2_spec p d hp hd
  have hcq : (0 : ℚ) < c := by exact_mod_cast hc
  apply floorLog2_eq_of _ _ _ (Nat.mul_pos hc hp) (Nat.mul_pos hc hd)
  · push_cast
    calc (c : ℚ) * d * 2 ^ floorLog2 p d = c * (d * 2 ^ floorLog2 p d) := by ring
      _ ≤ c * p := by apply mul_le_mul_of_nonneg_left s1 (le_of_lt hcq)
  · push_cast
    calc (c : ℚ) * p < c * (d * 2 ^ (floorLog2 p d + 1)) := by
          apply mul_lt_mul_of_pos_left s2 hcq
      _ = c * d * 2 ^ (floorLog2 p d + 1) := by ring


theorem divRoundEven_scale (c a b : Nat) (hc : 0 < c) :
    divRoundEven (c * a) (c * b) = divRoundEven a b := by
  unfold divRoundEven
  simp only [Nat.mul_div_mul_left a b hc, Nat.mul_mod_mul_left]
  have h1 : (2 * (c * (a % b)) < c * b) ↔ (2 * (a % b) < b) := by
    rw [show 2 * (c * (a % b)) = c * (2 * (a % b)) by ring]
    exact Nat.mul_lt_mul_left hc
  have h2 : (c * b < 2 * (c * (a % b))) ↔ (b < 2 * (a % b)) := by
    rw [show 2 * (c * (a % b)) = c * (2 * (a % b)) by ring]
    exact Nat.mul_lt_mul_left hc
  simp only [h1, h2]

theorem divRoundEven_mul (n b : Nat) (hb : 0 < b) : divRoundEven (n * b) b = n := by
  unfold divRoundEven
  simp [Nat.mul_div_cancel _ hb, hb]

theorem scaledRound_scale (c p d : Nat) (s : Int) (hc : 0 < c) :
    scaledRound (c * p) (c * d) s = scaledRound p d s := by
  unfold scaledRound
  split
  · rw [Nat.mul_assoc, divRoundEven_scale _ _ _ hc]
  · rw [Nat.mul_assoc, divRoundEven_scale _ _ _ hc]

theorem roundFrac_scale (neg : Bool) (c p d : Nat) (hc : 0 < c) (hd : 0 < d) :
    roundFrac neg (c * p) (c * d) = roundFrac neg p d := by
  unfold roundFrac
  by_cases hp : p = 0
  · subst hp
    simp
  · have hcp : c * p ≠ 0 := Nat.mul_ne_zero (by omega) hp
    rw [if_neg hcp, if_neg hp]
    simp only [floorLog2_scale c p d hc (by omega) hd, scaledRound_scale _ _ _ _ hc]

/-- The rounded value depends on the fraction only. -/
theorem roundFrac_congr (neg : Bool) (p d p2 d2 : Nat) (hd : 0 < d) (hd2 : 0 < d2)
    (h : p * d2 = p2 * d) : roundFrac neg p d = roundFrac neg p2 d2 := by
  rw [← roundFrac_scale neg d2 p d hd2 hd, ← roundFrac_scale neg d p2 d2 hd hd2]
  rw [show d2 * p = d * p2 by rw [Nat.mul_comm d2 p, h, Nat.mul_comm], Nat.mul_comm d2 d]


theorem roundFrac_grid (neg : Bool) (N k : Nat) (hN : 0 < N) (hN2 : N < 2 ^ 24) (hk : k ≤ 149) :
    ∃ t : Nat, roundFrac neg N (2 ^ k) = .fin neg (N * 2 ^ t) (-((t + k : Nat) : Int)) := by
  have hd : 0 < 2 ^ k := pow_pos (by norm_num) k
  obtain ⟨s1, s2⟩ := floorLog2_spec N (2 ^ k) hN hd
  push_cast at s1 s2
  have two_ne : (2 : ℚ) ≠ 0 := by norm_num
  have one_lt : (1 : ℚ) < 2 := by norm_num
  have h24 : (2 : ℚ) ^ ((24 : Nat) : Int) = ((2 ^ 24 : Nat) : ℚ) := by
    rw [zpow_natCast]
    norm_cast
  have hNq : (N : ℚ) < (2 : ℚ) ^ ((24 : Nat) : Int) := by
    rw [h24]
    exact_mod_cast hN2
  -- k + kf < 24
  have hkf : (k : Int) + floorLog2 N (2 ^ k) < ((24 : Nat) : Int) := by
    have h : (2 : ℚ) ^ ((k : Int) + floorLog2 N (2 ^ k)) < (2 : ℚ) ^ ((24 : Nat) : Int) := by
      rw [zpow_add₀ two_ne, zpow_natCast]
      exact lt_of_le_of_lt s1 hNq
    exact (zpow_lt_zpow_iff_right₀ one_lt).1 h
  generalize hkfdef : floorLog2 N (2 ^ k) = kf at s1 s2 hkf
  have hs_le : max kf (-126) - 23 ≤ -(k : Int) := by
    have : max kf (-126) ≤ 23 - (k : Int) := max_le (by omega) (by omega)
    omega
  have hs_ge : kf - 23 ≤ max kf (-126) - 23 := by
    have := le_max_left kf (-126)
    omega
  generalize hsdef : max kf (-126) - 23 = s at hs_le hs_ge
  obtain ⟨t, ht⟩ : ∃ t : Nat, s = -((t + k : Nat) : Int) := by
    refine ⟨(-s - k).toNat, ?_⟩
    have : 0 ≤ -s - (k : Int) := by omega
    push_cast
    rw [Int.toNat_of_nonneg this]
    ring
  have hround : scaledRound N (2 ^ k) s = N * 2 ^ t := by
    unfold scaledRound
    by_cases h0 : 0 ≤ s
    · have hk0 : k = 0 := by omega
      have ht0 : t = 0 := by omega
      have hs0 : s = 0 := by omega
      subst hk0 ht0 hs0
      simp only [le_refl, if_true, Int.toNat_zero, pow_zero, mul_one]
      simpa using divRoundEven_mul N 1 (by norm_num)
    · rw [if_neg h0]
      have : (-s).toNat = t + k := by
        rw [ht, neg_neg, Int.toNat_ofNat]
      rw [this, pow_add, ← Nat.mul_assoc]
      exact divRoundEven_mul _ _ hd
  have hlt : N * 2 ^ t < 2 ^ 24 := by
    have e : (2 : ℚ) ^ ((k : Int) + (kf + 1) + (t : Int)) = 2 ^ k * 2 ^ (kf + 1) * 2 ^ t := by
      rw [zpow_add₀ two_ne, zpow_add₀ two_ne, zpow_natCast, zpow_natCast]
    have h1 : ((N * 2 ^ t : Nat) : ℚ) < ((2 ^ 24 : Nat) : ℚ) := by
      rw [← h24]
      push_cast
      have ht2 : (0 : ℚ) < (2 : ℚ) ^ t := by positivity
      calc (N : ℚ) * 2 ^ t < (2 ^ k * 2 ^ (kf + 1)) * 2 ^ t :=
            mul_lt_mul_of_pos_right s2 ht2
        _ = (2 : ℚ) ^ ((k : Int) + (kf + 1) + (t : Int)) := e.symm
        _ ≤ (2 : ℚ) ^ ((24 : Nat) : Int) := by
            apply zpow_le_zpow_right₀ (le_of_lt one_lt)
            push_cast at ht ⊢
            omega
    exact_mod_cast h1
  refine ⟨t, ?_⟩
  unfold roundFrac
  have hN0 : N ≠ 0 := by omega
  rw [if_neg hN0]
  simp only [hkfdef, hsdef, hround]
  have hne : ¬ N * 2 ^ t = 2 ^ 24 := by omega
  have hs104 : ¬ (104 : Int) < s := by omega
  rw [if_neg hne, if_neg hs104, if_neg hne, ht]


theorem den_pos (e : Int) : 0 < den e := by
  unfold den
  split_ifs <;> positivity

theorem den_neg_nat (j : Nat) : den (-(j : Int)) = 2 ^ j := by
  unfold den
  by_cases h : j = 0
  · subst h
    simp
  · rw [if_neg (by omega)]
    simp

theorem num_neg_nat (n : Bool) (m j : Nat) :
    num n m (-(j : Int)) = if n then -(m : Int) else (m : Int) := by
  unfold num
  by_cases h : j = 0
  · subst h
    simp
  · have h2 : ¬ (0 : Int) ≤ -(j : Int) := by omega
    simp only [h2, if_false]

theorem num_false_nonneg (m : Nat) (e : Int) : 0 ≤ num false m e := by
  unfold num
  simp only [Bool.false_eq_true, if_false]
  split_ifs <;> exact Int.ofNat_nonneg _

theorem num_true (m : Nat) (e : Int) : num true m e = -num false m e := by
  unfold num
  simp

theorem num_sign (n : Bool) (m : Nat) (e : Int) :
    num n m e = if n then -((num false m e).natAbs : Int) else ((num false m e).natAbs : Int) := by
  have h := num_false_nonneg m e
  cases n
  · simp only [Bool.false_eq_true, if_false]
    omega
  · rw [num_true]
    simp only [if_true]
    omega

theorem ofFrac_congr (n : Int) (d : Nat) (n2 : Int) (d2 : Nat) (hd : 0 < d) (hd2 : 0 < d2)
    (h : n * d2 = n2 * d) : ofFrac n d = ofFrac n2 d2 := by
  unfold ofFrac
  have hdi : (0 : Int) < d := by exact_mod_cast hd
  have hd2i : (0 : Int) < d2 := by exact_mod_cast hd2
  have hs : decide (n < 0) = decide (n2 < 0) := by
    have : n < 0 ↔ n2 < 0 := by
      constructor
      · intro hn
        by_contra hc
        push_neg at hc
        have h1 : n * d2 < 0 := mul_neg_of_neg_of_pos hn hd2i
        have h2 : 0 ≤ n2 * d := mul_nonneg hc (le_of_lt hdi)
        omega
      · intro hn
        by_contra hc
        push_neg at hc
        have h1 : n2 * d < 0 := mul_neg_of_neg_of_pos hn hdi
        have h2 : 0 ≤ n * d2 := mul_nonneg hc (le_of_lt hd2i)
        omega
    simp only [this]
  rw [hs]
  apply roundFrac_congr _ _ _ _ _ hd hd2
  have := congrArg Int.natAbs h
  simpa [Int.natAbs_mul] using this

theorem dyadic_zero (k : Nat) : dyadic k 0 = .fin false 0 (-149) := by
  unfold dyadic ofFrac roundFrac
  simp

theorem dyadic_form (k : Nat) (N : Int) (hk : k ≤ 149) (hN : N.natAbs < 2 ^ 24) :
    ∃ m e, dyadic k N = .fin (decide (N < 0)) m e ∧
      num (decide (N < 0)) m e * 2 ^ k = N * den e := by
  by_cases h0 : N = 0
  · subst h0
    refine ⟨0, -149, dyadic_zero k, ?_⟩
    simp [num]
  · obtain ⟨t, ht⟩ := roundFrac_grid (decide (N < 0)) N.natAbs k (by omega) hN hk
    refine ⟨_, _, ht, ?_⟩
    rw [num_neg_nat, den_neg_nat]
    push_cast
    by_cases hn : N < 0
    · simp only [hn, decide_True, if_true]
      rw [abs_of_neg hn]
      ring
    · simp only [hn, decide_False, Bool.false_eq_true, if_false]
      rw [abs_of_nonneg (by omega)]
      ring

theorem dyadic_isVal (k : Nat) (N : Int) (hk : k ≤ 149) (hN : N.natAbs < 2 ^ 24) :
    IsVal k N (dyadic k N) := by
  obtain ⟨m, e, h1, h2⟩ := dyadic_form k N hk hN
  rw [h1]
  exact h2

theorem add_dyadic (k : Nat) (a b : Int) (y : F32) (hk : k ≤ 149) (ha : a.natAbs < 2 ^ 24)
    (hy : IsVal k b y) : add (dyadic k a) y = dyadic k (a + b) := by
  obtain ⟨m1, e1, hx, hv⟩ := dyadic_form k a hk ha
  rw [hx]
  cases y with
  | nan => exact hy.elim
  | inf _ => exact hy.elim
  | fin n2 m2 e2 =>
    have hy2 : num n2 m2 e2 * 2 ^ k = b * den e2 := hy
    have hd1 : (0 : Int) < den e1 := by exact_mod_cast den_pos e1
    have hd2 : (0 : Int) < den e2 := by exact_mod_cast den_pos e2
    have hp : (0 : Int) < 2 ^ k := by positivity
    have key : (num (decide (a < 0)) m1 e1 * den e2 + num n2 m2 e2 * den e1) * ((2 ^ k : Nat) : Int)
        = (a + b) * ((den e1 * den e2 : Nat) : Int) := by
      push_cast
      linear_combination (den e2 : Int) * hv + (den e1 : Int) * hy2
    simp only [add]
    by_cases hs : num (decide (a < 0)) m1 e1 * den e2 + num n2 m2 e2 * den e1 = 0
    · rw [if_pos hs]
      rw [hs, zero_mul] at key
      have hab : a + b = 0 := by
        have hD : ((den e1 * den e2 : Nat) : Int) ≠ 0 := by
          push_cast
          exact ne_of_gt (mul_pos hd1 hd2)
        rcases mul_eq_zero.1 key.symm with h | h
        · exact h
        · exact (hD h).elim
      rw [hab, dyadic_zero]
      have hsign : (decide (a < 0) && n2) = false := by
        cases n2 with
        | false => simp
        | true =>
          have : ¬ a < 0 := by
            intro hneg
            have hb : 0 < b := by omega
            have h1 : 0 < b * den e2 := mul_pos hb hd2
            have h2 : num true m2 e2 * 2 ^ k ≤ 0 := by
              rw [num_true]
              have := mul_nonneg (num_false_nonneg m2 e2) (le_of_lt hp)
              linarith
            omega
          simp [this]
      rw [hsign]
    · rw [if_neg hs]
      unfold dyadic
      exact ofFrac_congr _ _ _ _ (Nat.mul_pos (den_pos e1) (den_pos e2)) (pow_pos (by norm_num) k) key

theorem mul_isVal (kc ka : Nat) (a b : Int) (x y : F32) (hk : kc + ka ≤ 149)
    (hab : (a * b).natAbs < 2 ^ 24) (hx : IsVal kc a x) (hy : IsVal ka b y) :
    IsVal (kc + ka) (a * b) (mul x y) := by
  cases x with
  | nan => exact hx.elim
  | inf _ => exact hx.elim
  | fin n1 m1 e1 =>
  cases y with
  | nan => exact hy.elim
  | inf _ => exact hy.elim
  | fin n2 m2 e2 =>
    have hx2 : num n1 m1 e1 * 2 ^ kc = a * den e1 := hx
    have hy2 : num n2 m2 e2 * 2 ^ ka = b * den e2 := hy
    have hd1 : (0 : Int) < den e1 := by exact_mod_cast den_pos e1
    have hd2 : (0 : Int) < den e2 := by exact_mod_cast den_pos e2
    have hD : (0 : Int) < ((den e1 * den e2 : Nat) : Int) := by
      push_cast
      exact mul_pos hd1 hd2
    have hp : (0 : Int) < 2 ^ (kc + ka) := by positivity
    simp only [mul]
    generalize hP : (num false m1 e1).natAbs * (num false m2 e2).natAbs = P
    have hprod : num n1 m1 e1 * num n2 m2 e2 = if xor n1 n2 then -(P : Int) else (P : Int) := by
      rw [num_sign n1, num_sign n2, ← hP]
      cases n1 <;> cases n2 <;> simp
    have key : (num n1 m1 e1 * num n2 m2 e2) * 2 ^ (kc + ka)
        = (a * b) * ((den e1 * den e2 : Nat) : Int) := by
      push_cast
      rw [pow_add]
      linear_combination (num n2 m2 e2 * 2 ^ ka) * hx2 + (a * den e1) * hy2
    have hnat : P * 2 ^ (kc + ka) = (a * b).natAbs * (den e1 * den e2) := by
      have := congrArg Int.natAbs key
      rw [hprod] at this
      split_ifs at this <;> simpa [Int.natAbs_mul, Int.natAbs_pow] using this
    by_cases hz : a * b = 0
    · have hP0 : P = 0 := by
        rw [hz] at hnat
        simp at hnat
        exact hnat
      rw [hP0]
      unfold roundFrac
      rw [if_pos rfl, hz]
      show num _ 0 (-149) * 2 ^ (kc + ka) = 0 * _
      simp [num]
    · have hpos : 0 < (a * b).natAbs := Int.natAbs_pos.2 hz
      rw [roundFrac_congr (xor n1 n2) P (den e1 * den e2) (a * b).natAbs (2 ^ (kc + ka))
        (Nat.mul_pos (den_pos e1) (den_pos e2)) (pow_pos (by norm_num) _) hnat]
      obtain ⟨t, ht⟩ := roundFrac_grid (xor n1 n2) (a * b).natAbs (kc + ka) hpos hab hk
      rw [ht]
      show num _ _ _ * 2 ^ (kc + ka) = (a * b) * _
      rw [num_neg_nat, den_neg_nat]
      rw [hprod] at key
      push_cast
      by_cases hxor : xor n1 n2 = true
      · rw [hxor] at key ⊢
        simp only [if_true] at key ⊢
        have hneg : a * b < 0 := by
          by_contra hc
          push_neg at hc
          have h1 : 0 ≤ a * b * ((den e1 * den e2 : Nat) : Int) := mul_nonneg hc (le_of_lt hD)
          have h2 : (0 : Int) ≤ (P : Int) * 2 ^ (kc + ka) := by positivity
          have h3 : (P : Int) * 2 ^ (kc + ka) = 0 := by linarith
          have h4 : a * b * ((den e1 * den e2 : Nat) : Int) = 0 := by linarith
          rcases mul_eq_zero.1 h4 with h | h
          · exact hz h
          · omega
        rw [abs_of_neg hneg]
        ring
      · have hxf : xor n1 n2 = false := by simpa using hxor
        rw [hxf] at key ⊢
        simp only [Bool.false_eq_true, if_false] at key ⊢
        have hnn : 0 ≤ a * b := by
          by_contra hc
          push_neg at hc
          have h1 : a * b * ((den e1 * den e2 : Nat) : Int) < 0 := mul_neg_of_neg_of_pos hc hD
          have h2 : (0 : Int) ≤ (P : Int) * 2 ^ (kc + ka) := by positivity
          linarith
        rw [abs_of_nonneg hnn]
        ring

theorem onGrid_isVal (k : Nat) (x : F32) (h : OnGrid k x) : IsVal k (units k x) x := h

end F32

theorem aggregate_on_grid (kc ka : Nat) (hk : kc + ka ≤ 149) (ms : List module) :
    ∀ (A G : Int),
    (∀ m ∈ ms, F32.OnGrid kc m.cp ∧ F32.OnGrid ka m.avg) →
    A.natAbs + (ms.map fun m => (F32.units kc m.cp).natAbs).sum < 2 ^ 24 →
    G.natAbs + (ms.map fun m => (F32.units kc m.cp * F32.units ka m.avg).natAbs).sum < 2 ^ 24 →
    ms.foldl (fun acc m => (F32.add acc.1 m.cp, F32.add acc.2 (F32.mul m.cp m.avg)))
        (F32.dyadic kc A, F32.dyadic (kc + ka) G)
      = (F32.dyadic kc (A + (ms.map fun m => F32.units kc m.cp).sum),
         F32.dyadic (kc + ka)
           (G + (ms.map fun m => F32.units kc m.cp * F32.units ka m.avg).sum)) := by
  induction ms with
  | nil =>
    intro A G _ _ _
    simp
  | cons m ms ih =>
    intro A G hg hA hG
    simp only [List.map_cons, List.sum_cons] at hA hG
    have hm := hg m (List.mem_cons_self _ _)
    have hkc : kc ≤ 149 := by omega
    have h1 : F32.add (F32.dyadic kc A) m.cp = F32.dyadic kc (A + F32.units kc m.cp) :=
      F32.add_dyadic kc A _ m.cp hkc (by omega) hm.1
    have hprod : F32.IsVal (kc + ka) (F32.units kc m.cp * F32.units ka m.avg)
        (F32.mul m.cp m.avg) :=
      F32.mul_isVal kc ka _ _ _ _ hk (by omega) hm.1 hm.2
    have h2 : F32.add (F32.dyadic (kc + ka) G) (F32.mul m.cp m.avg)
        = F32.dyadic (kc + ka) (G + F32.units kc m.cp * F32.units ka m.avg) :=
      F32.add_dyadic (kc + ka) G _ _ hk (by omega) hprod
    have hA2 := Int.natAbs_add_le A (F32.units kc m.cp)
    have hG2 := Int.natAbs_add_le G (F32.units kc m.cp * F32.units ka m.avg)
    simp only [List.foldl_cons, h1, h2]
    rw [ih (A + F32.units kc m.cp) (G + F32.units kc m.cp * F32.units ka m.avg)
      (fun x hx => hg x (List.mem_cons_of_mem _ hx)) (by omega) (by omega)]
    simp only [List.map_cons, List.sum_cons, add_assoc]

theorem aggregate_eq_dyadic (kc ka : Nat) (hk : kc + ka ≤ 149) (ms : List module)
    (hgrid : ∀ m ∈ ms, F32.OnGrid kc m.cp ∧ F32.OnGrid ka m.avg)
    (hcp : (ms.map fun m => (F32.units kc m.cp).natAbs).sum < 2 ^ 24)
    (hgr : (ms.map fun m => (F32.units kc m.cp * F32.units ka m.avg).natAbs).sum < 2 ^ 24) :
    aggregate ms = (F32.dyadic kc (ms.map fun m => F32.units kc m.cp).sum,
      F32.dyadic (kc + ka) (ms.map fun m => F32.units kc m.cp * F32.units ka m.avg).sum) := by
  have h := aggregate_on_grid kc ka hk ms 0 0 hgrid (by simpa using hcp) (by simpa using hgr)
  simp only [zero_add] at h
  rw [F32.dyadic_zero kc, F32.dyadic_zero (kc + ka)] at h
  exact h

/-- C6 (amended): if every credit-point value of the records is a finite
multiple of `2^-kc` and every average a finite multiple of `2^-ka`, with
`kc + ka ≤ 149`, and the absolute values of the credit points, counted in units
of `2^-kc`, and of the products `cp * avg`, counted in units of `2^-(kc+ka)`,
each sum to less than `2^24`, then the loop of `main` computes the two sums
without rounding, and every permutation of the records gives the same sums and
the same weighted average. -/
theorem average_perm_on_grid (kc ka : Nat) (a b : List module) (hperm : List.Perm a b)
    (hk : kc + ka ≤ 149)
    (hgrid : ∀ m ∈ a, F32.OnGrid kc m.cp ∧ F32.OnGrid ka m.avg)
    (hcp : (a.map fun m => (F32.units kc m.cp).natAbs).sum < 2 ^ 24)
    (hgr : (a.map fun m => (F32.units kc m.cp * F32.units ka m.avg).natAbs).sum < 2 ^ 24) :
    aggregate a = (F32.dyadic kc (a.map fun m => F32.units kc m.cp).sum,
      F32.dyadic (kc + ka) (a.map fun m => F32.units kc m.cp * F32.units ka m.avg).sum) ∧
    aggregate b = aggregate a ∧
    totalAverage b = totalAverage a := by
  have ha := aggregate_eq_dyadic kc ka hk a hgrid hcp hgr
  have hb := aggregate_eq_dyadic kc ka hk b
    (fun m hm => hgrid m (hperm.mem_iff.2 hm))
    (by rw [← (hperm.map fun m => (F32.units kc m.cp).natAbs).sum_eq]; exact hcp)
    (by rw [← (hperm.map fun m => (F32.units kc m.cp * F32.units ka m.avg).natAbs).sum_eq]
        exact hgr)
  have hab : aggregate b = aggregate a := by
    rw [ha, hb, (hperm.map fun m => F32.units kc m.cp).sum_eq,
      (hperm.map fun m => F32.units kc m.cp * F32.units ka m.avg).sum_eq]
  refine ⟨ha, hab, ?_⟩
  unfold totalAverage
  rw [hab]

/-- Witness of C6: three records with the credit points 5, 7.5 and 10 and the
averages 2.5, 1.75 and 3.25, in two orders. -/
theorem average_perm_on_grid_witness :
    aggregate threeModules = (F32.dyadic 1 45, F32.dyadic 3 465) ∧
    aggregate threeModulesReordered = aggregate threeModules ∧
    totalAverage threeModulesReordered = totalAverage threeModules :=
  average_perm_on_grid 1 2 threeModules threeModulesReordered (by decide) (by decide)
    (by decide) (by decide) (by decide)
